import Mathlib

/-!
Shallow embedding of the TDS-Solver ingestion pipeline and completion
gateway (`app.py`).  Byte strings are lists of naturals (each byte value),
and Python text strings are lists of Unicode code points.  Python
exceptions are modelled with an explicit `Except` result; external
effects (the spreadsheet parser, the zip reader, the HTTP transport)
are passed in as explicit oracle functions.  Recursions that consume a
list by more than one element per step carry an explicit fuel argument
(always instantiated with the list length), keeping every definition
computable by kernel reduction.
-/

set_option autoImplicit false

/-- Raw byte strings: one natural number (0..255) per byte. -/
abbrev Bytes := List Nat

/-- Python text: one natural number per Unicode code point. -/
abbrev PyStr := List Nat

/-- Inject a Lean string literal as a Python string (code-point list). -/
def pyStr (s : String) : PyStr := s.data.map Char.toNat

/-- ASCII model of Python str.lower, applied code point by code point. -/
def lowerChar (c : Nat) : Nat := if 65 ≤ c ∧ c ≤ 90 then c + 32 else c

/-- Model of Python str.lower on a whole string. -/
def pyLower (s : PyStr) : PyStr := s.map lowerChar

/-- Model of Python s.split dividing on the dot character (code 46);
mirrors str.split, which always yields a non-empty list. -/
def splitDot : PyStr → List PyStr
  | [] => [[]]
  | c :: r =>
    match splitDot r with
    | [] => [[]]
    | h :: t => if c = 46 then [] :: h :: t else (c :: h) :: t

/-- Python exception values that the embedded code can raise. -/
inductive PyExc where
  | unicodeDecodeError
  | typeError
  | valueError (msg : PyStr)
  | jsonDecodeError
  | badZipFile
  | excelError
  | keyError
  | unboundLocalError
  deriving DecidableEq

/-- Is a byte a UTF-8 continuation byte (0x80..0xBF)? -/
def isCont (b : Nat) : Bool := 0x80 ≤ b && b ≤ 0xBF

/-- Fuelled worker for strict UTF-8 decoding; each step consumes at
least one byte, so fuel equal to the list length always suffices. -/
def utf8DecodeF : Nat → List Nat → Option (List Nat)
  | _, [] => some []
  | 0, _ :: _ => none
  | fuel + 1, b :: rest =>
    if b ≤ 0x7F then (utf8DecodeF fuel rest).map (fun t => b :: t)
    else if 0xC2 ≤ b && b ≤ 0xDF then
      match rest with
      | b2 :: r =>
        if isCont b2 then
          (utf8DecodeF fuel r).map (fun t => ((b - 0xC0) * 0x40 + (b2 - 0x80)) :: t)
        else none
      | [] => none
    else if b = 0xE0 then
      match rest with
      | b2 :: b3 :: r =>
        if (0xA0 ≤ b2 && b2 ≤ 0xBF) && isCont b3 then
          (utf8DecodeF fuel r).map
            (fun t => ((b2 - 0x80) * 0x40 + (b3 - 0x80)) :: t)
        else none
      | _ => none
    else if (0xE1 ≤ b && b ≤ 0xEC) || b = 0xEE || b = 0xEF then
      match rest with
      | b2 :: b3 :: r =>
        if isCont b2 && isCont b3 then
          (utf8DecodeF fuel r).map
            (fun t => ((b - 0xE0) * 0x1000 + (b2 - 0x80) * 0x40 + (b3 - 0x80)) :: t)
        else none
      | _ => none
    else if b = 0xED then
      match rest with
      | b2 :: b3 :: r =>
        if (0x80 ≤ b2 && b2 ≤ 0x9F) && isCont b3 then
          (utf8DecodeF fuel r).map
            (fun t => (0xD000 + (b2 - 0x80) * 0x40 + (b3 - 0x80)) :: t)
        else none
      | _ => none
    else if b = 0xF0 then
      match rest with
      | b2 :: b3 :: b4 :: r =>
        if (0x90 ≤ b2 && b2 ≤ 0xBF) && (isCont b3 && isCont b4) then
          (utf8DecodeF fuel r).map
            (fun t => ((b2 - 0x80) * 0x1000 + (b3 - 0x80) * 0x40 + (b4 - 0x80)) :: t)
        else none
      | _ => none
    else if 0xF1 ≤ b && b ≤ 0xF3 then
      match rest with
      | b2 :: b3 :: b4 :: r =>
        if isCont b2 && (isCont b3 && isCont b4) then
          (utf8DecodeF fuel r).map
            (fun t => ((b - 0xF0) * 0x40000 + (b2 - 0x80) * 0x1000 +
              (b3 - 0x80) * 0x40 + (b4 - 0x80)) :: t)
        else none
      | _ => none
    else if b = 0xF4 then
      match rest with
      | b2 :: b3 :: b4 :: r =>
        if (0x80 ≤ b2 && b2 ≤ 0x8F) && (isCont b3 && isCont b4) then
          (utf8DecodeF fuel r).map
            (fun t => (0x100000 + (b2 - 0x80) * 0x1000 +
              (b3 - 0x80) * 0x40 + (b4 - 0x80)) :: t)
        else none
      | _ => none
    else none

/-- Strict UTF-8 decoding, as performed by Python bytes.decode of utf-8:
rejects truncated and overlong forms, surrogates, and values above
0x10FFFF.  Returns the decoded code points, or none on any error. -/
def utf8Decode (l : List Nat) : Option (List Nat) := utf8DecodeF l.length l

/-- Group a byte string into 16-bit UTF-16 code units (little endian when
`le` is true); fails on an odd number of bytes, as Python utf-16 does. -/
def utf16Units (le : Bool) : List Nat → Option (List Nat)
  | [] => some []
  | [_] => none
  | a :: b :: r =>
    let u := if le then a + 0x100 * b else 0x100 * a + b
    (utf16Units le r).map (fun t => u :: t)

/-- Fuelled worker combining UTF-16 code units, pairing surrogates; a
lone surrogate is a decoding error, as in Python strict utf-16. -/
def utf16CombineF : Nat → List Nat → Option (List Nat)
  | _, [] => some []
  | 0, _ :: _ => none
  | fuel + 1, u :: r =>
    if u < 0xD800 || 0xE000 ≤ u then (utf16CombineF fuel r).map (fun t => u :: t)
    else if u ≤ 0xDBFF then
      match r with
      | v :: r2 =>
        if 0xDC00 ≤ v && v ≤ 0xDFFF then
          (utf16CombineF fuel r2).map
            (fun t => (0x10000 + (u - 0xD800) * 0x400 + (v - 0xDC00)) :: t)
        else none
      | [] => none
    else none

/-- Combine UTF-16 code units into code points. -/
def utf16Combine (l : List Nat) : Option (List Nat) := utf16CombineF l.length l

/-- Python bytes.decode of utf-16: consume a byte-order mark if present,
default to little endian otherwise, then decode the 16-bit units. -/
def utf16Decode (l : List Nat) : Option (List Nat) :=
  match l with
  | 0xFF :: 0xFE :: r => (utf16Units true r).bind utf16Combine
  | 0xFE :: 0xFF :: r => (utf16Units false r).bind utf16Combine
  | _ => (utf16Units true l).bind utf16Combine

/-- The cp1252 single-byte table: bytes 0x81, 0x8D, 0x8F, 0x90 and 0x9D
are unmapped and fail; the 0x80..0x9F block maps to the Windows-1252
punctuation and letter code points; everything else maps to itself. -/
def cp1252Char (b : Nat) : Option Nat :=
  if b ≤ 0x7F then some b
  else if 0xA0 ≤ b && b ≤ 0xFF then some b
  else if b = 0x80 then some 0x20AC
  else if b = 0x82 then some 0x201A
  else if b = 0x83 then some 0x0192
  else if b = 0x84 then some 0x201E
  else if b = 0x85 then some 0x2026
  else if b = 0x86 then some 0x2020
  else if b = 0x87 then some 0x2021
  else if b = 0x88 then some 0x02C6
  else if b = 0x89 then some 0x2030
  else if b = 0x8A then some 0x0160
  else if b = 0x8B then some 0x2039
  else if b = 0x8C then some 0x0152
  else if b = 0x8E then some 0x017D
  else if b = 0x91 then some 0x2018
  else if b = 0x92 then some 0x2019
  else if b = 0x93 then some 0x201C
  else if b = 0x94 then some 0x201D
  else if b = 0x95 then some 0x2022
  else if b = 0x96 then some 0x2013
  else if b = 0x97 then some 0x2014
  else if b = 0x98 then some 0x02DC
  else if b = 0x99 then some 0x2122
  else if b = 0x9A then some 0x0161
  else if b = 0x9B then some 0x203A
  else if b = 0x9C then some 0x0153
  else if b = 0x9E then some 0x017E
  else if b = 0x9F then some 0x0178
  else none

/-- Python bytes.decode of cp1252, byte by byte. -/
def cp1252Decode (l : List Nat) : Option (List Nat) := l.mapM cp1252Char

/-- The Encoding Resolver (`try_decode` in app.py): try utf-8, then
utf-16, then cp1252; return the first decoding that succeeds.  When all
three fail, the source executes `raise UnicodeDecodeError("...")`; the
CPython `UnicodeDecodeError` constructor requires five arguments, so
that raise statement itself raises a `TypeError`, which is what this
embedding records. -/
def try_decode (content : Bytes) : Except PyExc PyStr :=
  match utf8Decode content with
  | some s => .ok s
  | none =>
    match utf16Decode content with
    | some s => .ok s
    | none =>
      match cp1252Decode content with
      | some s => .ok s
      | none => .error .typeError

/-- JSON values as produced by Python json.loads, restricted to integer
numerals (floating-point literals are outside this model).  Objects keep
insertion order, as Python dicts do. -/
inductive Json where
  | null
  | bool (b : Bool)
  | num (n : Int)
  | str (s : PyStr)
  | arr (elems : List Json)
  | obj (entries : List (PyStr × Json))

/-- Fuelled decimal digits of a natural number (most significant first). -/
def natDigitsF : Nat → Nat → PyStr
  | _, 0 => [48]
  | 0, _ + 1 => []
  | fuel + 1, n + 1 =>
    if n + 1 < 10 then [48 + (n + 1)]
    else natDigitsF fuel ((n + 1) / 10) ++ [48 + (n + 1) % 10]

/-- Decimal digits of a natural number. -/
def natDigits (n : Nat) : PyStr := natDigitsF n n

/-- Python str of an integer, as json.dumps prints integer numerals. -/
def intDigits : Int → PyStr
  | .ofNat n => natDigits n
  | .negSucc m => 45 :: natDigits (m + 1)

/-- Lowercase hexadecimal digit character for a value below 16. -/
def hexDigitChar (d : Nat) : Nat := if d < 10 then 48 + d else 87 + d

/-- Four lowercase hex digit characters of a value below 0x10000. -/
def hex4 (n : Nat) : PyStr :=
  [hexDigitChar (n / 4096 % 16), hexDigitChar (n / 256 % 16),
   hexDigitChar (n / 16 % 16), hexDigitChar (n % 16)]

/-- Escape one string character the way json.dumps does with its default
ensure_ascii=True: two-character escapes for quote, backslash and the
common controls, otherwise a backslash-u escape for anything outside
printable ASCII, with a surrogate pair for astral code points. -/
def escChar (c : Nat) : PyStr :=
  if c = 34 then [92, 34]
  else if c = 92 then [92, 92]
  else if c = 8 then [92, 98]
  else if c = 9 then [92, 116]
  else if c = 10 then [92, 110]
  else if c = 12 then [92, 102]
  else if c = 13 then [92, 114]
  else if c < 32 then 92 :: 117 :: hex4 c
  else if c ≤ 126 then [c]
  else if c < 0x10000 then 92 :: 117 :: hex4 c
  else
    92 :: 117 :: hex4 (0xD800 + (c - 0x10000) / 0x400) ++
      (92 :: 117 :: hex4 (0xDC00 + (c - 0x10000) % 0x400))

/-- Escaped body of a JSON string literal. -/
def escBody (s : PyStr) : PyStr := (s.map escChar).flatten

/-- A complete JSON string literal: quote, escaped body, quote. -/
def escStr (s : PyStr) : PyStr := 34 :: escBody s ++ [34]

mutual

/-- Python json.dumps with its default separators (a space after every
comma and colon) and default ensure_ascii escaping. -/
def jsonDumps : Json → PyStr
  | .null => [110, 117, 108, 108]
  | .bool true => [116, 114, 117, 101]
  | .bool false => [102, 97, 108, 115, 101]
  | .num n => intDigits n
  | .str s => escStr s
  | .arr [] => [91, 93]
  | .arr (x :: xs) => 91 :: (jsonDumps x ++ dumpsItems xs) ++ [93]
  | .obj [] => [123, 125]
  | .obj ((k, v) :: kvs) =>
    123 :: (escStr k ++ 58 :: 32 :: jsonDumps v ++ dumpsPairs kvs) ++ [125]

/-- Remaining array items, each preceded by a comma and a space. -/
def dumpsItems : List Json → PyStr
  | [] => []
  | x :: xs => 44 :: 32 :: jsonDumps x ++ dumpsItems xs

/-- Remaining object entries, each preceded by a comma and a space. -/
def dumpsPairs : List (PyStr × Json) → PyStr
  | [] => []
  | (k, v) :: kvs => 44 :: 32 :: (escStr k ++ 58 :: 32 :: jsonDumps v) ++ dumpsPairs kvs

end

/-- JSON whitespace accepted by the Python scanner. -/
def isWs (c : Nat) : Bool := c = 32 || c = 9 || c = 10 || c = 13

/-- Drop leading JSON whitespace. -/
def skipWs : PyStr → PyStr
  | [] => []
  | c :: r => if isWs c then skipWs r else c :: r

/-- Value of one hexadecimal digit character (either case). -/
def hexVal (c : Nat) : Option Nat :=
  if 48 ≤ c && c ≤ 57 then some (c - 48)
  else if 97 ≤ c && c ≤ 102 then some (c - 87)
  else if 65 ≤ c && c ≤ 70 then some (c - 55)
  else none

/-- Value of a four-digit hexadecimal escape. -/
def hex4Val (a b c d : Nat) : Option Nat :=
  match hexVal a, hexVal b, hexVal c, hexVal d with
  | some x, some y, some z, some w => some (4096 * x + 256 * y + 16 * z + w)
  | _, _, _, _ => none

/-- Is a character an ASCII decimal digit? -/
def isDigit (c : Nat) : Bool := 48 ≤ c && c ≤ 57

/-- Longest digit run at the front of a string, and the remainder. -/
def takeDigits : PyStr → PyStr × PyStr
  | [] => ([], [])
  | c :: r =>
    if isDigit c then
      let p := takeDigits r
      (c :: p.1, p.2)
    else ([], c :: r)

/-- Numeric value of a decimal digit string. -/
def digitsToNat (l : PyStr) : Nat := l.foldl (fun a c => a * 10 + (c - 48)) 0

/-- Parse a JSON integer numeral: optional minus sign, then digits with
no redundant leading zero.  A following dot or exponent marker would
start a floating-point literal, which this model does not cover, so the
parse fails there. -/
def parseNum (s : PyStr) : Option (Int × PyStr) :=
  let neg := s.head? = some 45
  let body := if neg then s.tail else s
  match takeDigits body with
  | ([], _) => none
  | (d :: ds, r) =>
    if d = 48 && !ds.isEmpty then none
    else if r.head? = some 46 || r.head? = some 101 || r.head? = some 69 then none
    else
      let v : Int := Int.ofNat (digitsToNat (d :: ds))
      some (if neg then -v else v, r)

/-- Decoded code point of a two-character JSON escape (the character
after the backslash), or none when it is not one of the eight shorts. -/
def escShort (e : Nat) : Option Nat :=
  if e = 34 then some 34
  else if e = 92 then some 92
  else if e = 47 then some 47
  else if e = 98 then some 8
  else if e = 102 then some 12
  else if e = 110 then some 10
  else if e = 114 then some 13
  else if e = 116 then some 9
  else none

/-- After an escaped high surrogate: require an immediately following
backslash-u escape holding a low surrogate and combine the pair into
one astral code point. -/
def unescapePair (u : Nat) (r2 : PyStr) : Option (Nat × PyStr) :=
  match r2 with
  | e2 :: e3 :: a2 :: b2 :: c2 :: d2 :: r3 =>
    if e2 = 92 ∧ e3 = 117 then
      (hex4Val a2 b2 c2 d2).bind (fun w =>
        if 0xDC00 ≤ w ∧ w ≤ 0xDFFF then
          some (0x10000 + (u - 0xD800) * 0x400 + (w - 0xDC00), r3)
        else none)
    else none
  | _ => none

/-- Decode a backslash-u escape (positioned after the backslash-u):
four hex digits; a high surrogate must begin a surrogate pair, and a
lone low surrogate is rejected; anything else stands for itself. -/
def unescapeU (r1 : PyStr) : Option (Nat × PyStr) :=
  match r1 with
  | a :: b :: c :: d :: r2 =>
    (hex4Val a b c d).bind (fun u =>
      if 0xD800 ≤ u ∧ u ≤ 0xDBFF then unescapePair u r2
      else if 0xDC00 ≤ u ∧ u ≤ 0xDFFF then none
      else some (u, r2))
  | _ => none

/-- Decode one backslash escape of a JSON string literal, positioned
just after the backslash.  The decoders feeding this parser never
produce unpaired surrogate text, so lone escaped surrogates are
rejected. -/
def unescape1 : PyStr → Option (Nat × PyStr)
  | [] => none
  | e :: r1 =>
    if e = 117 then unescapeU r1
    else (escShort e).bind (fun u => some (u, r1))

/-- Fuelled worker parsing the body of a JSON string literal, positioned
just after the opening quote; returns the decoded characters and the
input after the closing quote.  Raw characters below 0x20 are rejected,
as in Python strict mode, and raw characters must be Unicode scalar
values, which is all a Python str obtained from the decoders can hold. -/
def parseStrF : Nat → PyStr → Option (PyStr × PyStr)
  | _, [] => none
  | 0, _ :: _ => none
  | fuel + 1, c :: r =>
    if c = 34 then some ([], r)
    else if c = 92 then
      (unescape1 r).bind (fun p =>
        (parseStrF fuel p.2).map (fun q => (p.1 :: q.1, q.2)))
    else if 32 ≤ c ∧ (c < 0x110000 ∧ ¬(0xD800 ≤ c ∧ c ≤ 0xDFFF)) then
      (parseStrF fuel r).map (fun p => (c :: p.1, p.2))
    else none


/-- Parse a JSON string body (fuel instantiated with the input length). -/
def parseStr (s : PyStr) : Option (PyStr × PyStr) := parseStrF s.length s

/-- Python dict insertion: replace the value in place when the key is
already present, otherwise append the binding at the end. -/
def insertKey : List (PyStr × Json) → PyStr → Json → List (PyStr × Json)
  | [], k, v => [(k, v)]
  | (k', v') :: t, k, v =>
    if k' = k then (k', v) :: t else (k', v') :: insertKey t k v

/-- Consume an expected literal continuation (the tail of null, true
or false) from the input, as the Python scanner compares the next
characters against the keyword. -/
def expectLit : PyStr → PyStr → Option PyStr
  | [], r => some r
  | _ :: _, [] => none
  | p :: ps, c :: r => if c = p then expectLit ps r else none

mutual

/-- Fuelled recursive-descent parser for one JSON value, mirroring the
Python json scanner: skip whitespace, dispatch on the first character,
and return the value plus the unconsumed remainder. -/
def parseVal : Nat → PyStr → Option (Json × PyStr)
  | 0, _ => none
  | fuel + 1, s =>
    match skipWs s with
    | [] => none
    | c :: r =>
      if c = 110 then (expectLit [117, 108, 108] r).map (fun r2 => (.null, r2))
      else if c = 116 then (expectLit [114, 117, 101] r).map (fun r2 => (.bool true, r2))
      else if c = 102 then (expectLit [97, 108, 115, 101] r).map (fun r2 => (.bool false, r2))
      else if c = 34 then (parseStr r).map (fun p => (.str p.1, p.2))
      else if c = 91 then
        match skipWs r with
        | c2 :: r2 => if c2 = 93 then some (.arr [], r2) else parseArrItems fuel [] r
        | [] => parseArrItems fuel [] r
      else if c = 123 then
        match skipWs r with
        | c2 :: r2 => if c2 = 125 then some (.obj [], r2) else parseObjItems fuel [] r
        | [] => parseObjItems fuel [] r
      else if c = 45 ∨ isDigit c = true then
        (parseNum (c :: r)).map (fun p => (.num p.1, p.2))
      else none

/-- Parse the elements of a non-empty JSON array, accumulating parsed
elements in order; after each element a comma continues the array and a
closing bracket ends it. -/
def parseArrItems : Nat → List Json → PyStr → Option (Json × PyStr)
  | 0, _, _ => none
  | fuel + 1, acc, s =>
    (parseVal fuel s).bind (fun p =>
      match skipWs p.2 with
      | c :: r2 =>
        if c = 44 then parseArrItems fuel (acc ++ [p.1]) r2
        else if c = 93 then some (.arr (acc ++ [p.1]), r2)
        else none
      | [] => none)

/-- Parse the entries of a non-empty JSON object: a string key, a colon,
a value, then a comma or closing brace; duplicate keys overwrite in
place as Python dicts do. -/
def parseObjItems : Nat → List (PyStr × Json) → PyStr → Option (Json × PyStr)
  | 0, _, _ => none
  | fuel + 1, acc, s =>
    match skipWs s with
    | c :: r =>
      if c = 34 then
        (parseStr r).bind (fun pk =>
          match skipWs pk.2 with
          | c2 :: r3 =>
            if c2 = 58 then
              (parseVal fuel r3).bind (fun pv =>
                match skipWs pv.2 with
                | c3 :: r5 =>
                  if c3 = 44 then parseObjItems fuel (insertKey acc pk.1 pv.1) r5
                  else if c3 = 125 then some (.obj (insertKey acc pk.1 pv.1), r5)
                  else none
                | [] => none)
            else none
          | [] => none)
      else none
    | [] => none

end

/-- Python json.loads on the integer-numeral fragment: parse one value,
then require only whitespace to remain. -/
def jsonParse (s : PyStr) : Option Json :=
  (parseVal (2 * s.length + 2) s).bind (fun p => if skipWs p.2 = [] then some p.1 else none)

/-- A code point Python can store in a str that is also a Unicode scalar
value: below 0x110000 and not a surrogate half. -/
def isScalar (c : Nat) : Bool := c < 0x110000 && !(0xD800 ≤ c && c ≤ 0xDFFF)

/-- Well-formed JSON string content: every character a scalar value. -/
def wfStr (s : PyStr) : Bool := s.all isScalar

/-- Are the keys of an object pairwise distinct? -/
def nodupKeys : List PyStr → Bool
  | [] => true
  | k :: t => decide (k ∉ t) && nodupKeys t

mutual

/-- Well-formedness of a JSON value: string contents are scalar text and
object keys are distinct; exactly the values the parser can produce. -/
def wfJson : Json → Bool
  | .null => true
  | .bool _ => true
  | .num _ => true
  | .str s => wfStr s
  | .arr xs => wfArr xs
  | .obj kvs => nodupKeys (kvs.map Prod.fst) && wfPairs kvs

/-- Well-formedness of a list of array elements. -/
def wfArr : List Json → Bool
  | [] => true
  | x :: xs => wfJson x && wfArr xs

/-- Well-formedness of object entries: scalar keys, well-formed values. -/
def wfPairs : List (PyStr × Json) → Bool
  | [] => true
  | (k, v) :: kvs => wfStr k && wfJson v && wfPairs kvs

end

/-- The accepted member suffixes of app.py line 127, in source order. -/
def contentSuffixes : List PyStr :=
  [pyStr ".csv", pyStr ".json", pyStr ".xls", pyStr ".xlsx", pyStr ".txt", pyStr ".md"]

/-- The Format Normalizer (`process_file` in app.py): dispatch on the
lowercased substring after the last dot of the file name.  The first
component is the Python result (text or raised exception); the second
counts how many times the Encoding Resolver `try_decode` was entered.
The spreadsheet reader (pandas read_excel piped through to_csv) is an
external library, passed in as the oracle `xl`. -/
def process_file (xl : Bytes → Except PyExc PyStr) (file_content : Bytes)
    (fname : PyStr) : Except PyExc PyStr × Nat :=
  let ext := pyLower ((splitDot fname).getLastD [])
  if ext = pyStr "csv" then (try_decode file_content, 1)
  else if ext = pyStr "json" then
    (match try_decode file_content with
     | .error e => .error e
     | .ok s =>
       match jsonParse s with
       | none => .error .jsonDecodeError
       | some v => .ok (jsonDumps v), 1)
  else if ext ∈ [pyStr "xls", pyStr "xlsx"] then (xl file_content, 0)
  else if ext ∈ [pyStr "txt", pyStr "md"] then (try_decode file_content, 1)
  else (.error (.valueError (pyStr "Unsupported file type: ." ++ ext)), 0)

/-- Eligibility test of archive members (app.py line 127): the lowercased
member name must end in one of the six accepted content suffixes. -/
def eligName (fname : PyStr) : Bool :=
  contentSuffixes.any (fun suf => suf.isSuffixOf (pyLower fname))

/-- The section delimiter written before each ingested source. -/
def fileHeader (name : PyStr) : PyStr :=
  pyStr "\n\n--- FILE: " ++ name ++ pyStr " ---\n\n"

/-- The archive loop of `parse_uploaded_file`: walk the member list in
enumeration order, appending a section header and the normalized text
for each eligible member and skipping the rest; a normalization failure
aborts the whole expansion. -/
def expandZip (xl : Bytes → Except PyExc PyStr) :
    List (PyStr × Bytes) → PyStr → Except PyExc PyStr
  | [], acc => .ok acc
  | (name, content) :: t, acc =>
    if eligName name then
      match (process_file xl content name).1 with
      | .error e => .error e
      | .ok txt => expandZip xl t (acc ++ fileHeader name ++ txt)
    else expandZip xl t acc

/-- The Ingestion Orchestrator (`parse_uploaded_file` in app.py): lower
the top-level filename, expand it as a zip container when it ends in
.zip (the zip reader is the external oracle `unzip`), otherwise
normalize the whole payload as a single file.  `fd` is the incoming
accumulated file_data (the empty string in the route). -/
def parse_uploaded_file (xl : Bytes → Except PyExc PyStr)
    (unzip : Bytes → Except PyExc (List (PyStr × Bytes)))
    (filename : PyStr) (fileBytes : Bytes) (fd : PyStr) : Except PyExc PyStr :=
  let lname := pyLower filename
  if (pyStr ".zip").isSuffixOf lname then
    match unzip fileBytes with
    | .error e => .error e
    | .ok members => expandZip xl members fd
  else
    match (process_file xl fileBytes lname).1 with
    | .error e => .error e
    | .ok txt => .ok (fd ++ fileHeader lname ++ txt)

/-- Template text before the question (code 39 is the apostrophe). -/
def promptPre : PyStr :=
  pyStr "You" ++ 39 ::
    pyStr "re helping a data science student solving an objective assignment.\n    Return only the final correct answer, nothing else — do not include explanation or formatting.\n\n    Question: "

/-- Template text between the question and the ingested file data. -/
def promptMid : PyStr := pyStr "\n    Data (if any):\n    "

/-- Template text after the ingested file data. -/
def promptTail : PyStr := pyStr "\n    Answer:"

/-- The Prompt Assembler: the fixed f-string template of get_llm_answer
with the question and file_data substituted verbatim. -/
def promptOf (question file_data : PyStr) : PyStr :=
  promptPre ++ question ++ promptMid ++ file_data ++ promptTail

/-- Possible shapes of the remote completion response body. -/
inductive RespBody where
  | notJson
  | missingFields
  | content (s : PyStr)

/-- Behaviour of the HTTP transport for one request: either
requests.post raises (connection error, timeout), or it returns a
response with a status code and a body. -/
inductive NetOutcome where
  | postRaises
  | resp (status : Nat) (body : RespBody)

/-- ASCII model of Python str.strip with no argument. -/
def isPyWs (c : Nat) : Bool :=
  c = 32 || c = 9 || c = 10 || c = 13 || c = 11 || c = 12

/-- Strip leading and trailing whitespace, as str.strip does. -/
def pyStrip (s : PyStr) : PyStr :=
  (((s.dropWhile isPyWs).reverse).dropWhile isPyWs).reverse

/-- The Completion Gateway Adapter (`get_llm_answer` in app.py).  The
first component is the Python outcome of the call; the second lists the
prompts of the requests actually dispatched to the remote endpoint.
With no token the function returns its sentinel before any request.
When requests.post itself raises, the local variable `response` was
never assigned, so the `if response is not None` test inside the except
handler raises UnboundLocalError, which escapes the function; every
later failure (bad status via raise_for_status, a non-JSON body, or a
body missing the choices/message/content fields) happens with
`response` bound and is converted to the "LLM generation failed"
sentinel.  A well-formed body yields the stripped message content. -/
def get_llm_answer (token : Option PyStr) (net : PyStr → NetOutcome)
    (question file_data : PyStr) : Except PyExc PyStr × List PyStr :=
  match token with
  | none => (.ok (pyStr "Missing API token"), [])
  | some _ =>
    let prompt := promptOf question file_data
    match net prompt with
    | .postRaises => (.error .unboundLocalError, [prompt])
    | .resp status body =>
      if 400 ≤ status ∧ status < 600 then (.ok (pyStr "LLM generation failed"), [prompt])
      else
        match body with
        | .notJson => (.ok (pyStr "LLM generation failed"), [prompt])
        | .missingFields => (.ok (pyStr "LLM generation failed"), [prompt])
        | .content s => (.ok (pyStrip s), [prompt])

/-- What the `/api/` route hands back to the HTTP layer. -/
inductive ApiResponse where
  | answer (a : PyStr)
  | errorResp (e : PyExc)
  | raised (e : PyExc)

/-- Observable outcome of one request to the `/api/` route: the
response, whether the completion adapter was invoked at all, and the
prompts of the network requests dispatched while handling it. -/
structure SolveResult where
  resp : ApiResponse
  llmCalled : Bool
  dispatched : List PyStr

/-- The tail of solve_assignment once ingestion has produced file_data:
call the completion adapter and wrap its outcome. -/
def answerStep (token : Option PyStr) (net : PyStr → NetOutcome)
    (question fd : PyStr) : SolveResult :=
  match get_llm_answer token net question fd with
  | (.ok a, ds) => ⟨.answer a, true, ds⟩
  | (.error e, ds) => ⟨.raised e, true, ds⟩

/-- The `/api/` route handler (`solve_assignment` in app.py): read the
question form field with an empty-string default, start with empty
file_data, run ingestion when a file is present (an ingestion failure
returns the 400 error response and stops), then call the completion
adapter. -/
def solve_assignment (xl : Bytes → Except PyExc PyStr)
    (unzip : Bytes → Except PyExc (List (PyStr × Bytes)))
    (net : PyStr → NetOutcome) (token : Option PyStr)
    (questionField : Option PyStr) (file : Option (PyStr × Bytes)) : SolveResult :=
  let question := questionField.getD []
  match file with
  | none => answerStep token net question []
  | some (fname, fileBytes) =>
    match parse_uploaded_file xl unzip fname fileBytes [] with
    | .error e => ⟨.errorResp e, false, []⟩
    | .ok fd => answerStep token net question fd

/-- Is every character of the list JSON whitespace? -/
def isWsList (l : PyStr) : Bool := l.all isWs

/-- May a serialized JSON value be followed directly by this remainder?
True when the remainder is empty or starts with a comma, a closing
bracket or a closing brace -- the only continuations the serializer
produces after a nested value. -/
def stopOk (r : PyStr) : Bool :=
  match r with
  | [] => true
  | c :: _ => c = 44 || c = 93 || c = 125

theorem splitDot_of_not_mem {l : PyStr} (h : 46 ∉ l) : splitDot l = [l] := by
  induction l with
  | nil => rfl
  | cons c r ih =>
    have hc : ¬(c = 46) := fun e => h (e ▸ List.mem_cons_self c r)
    have hr : 46 ∉ r := fun m => h (List.mem_cons_of_mem _ m)
    simp [splitDot, ih hr, hc]

theorem expandZip_spec (xl : Bytes → Except PyExc PyStr) (t : PyStr × Bytes → PyStr)
    (members : List (PyStr × Bytes)) :
    ∀ acc : PyStr,
      (∀ p ∈ members, eligName p.1 = true → (process_file xl p.2 p.1).1 = .ok (t p)) →
      expandZip xl members acc =
        .ok (acc ++
          ((members.filter fun p => eligName p.1).map fun p => fileHeader p.1 ++ t p).flatten) := by
  induction members with
  | nil => intro acc _; simp [expandZip]
  | cons p tl ih =>
    intro acc h
    obtain ⟨name, content⟩ := p
    have htl := ih (acc ++ (fileHeader name ++ t (name, content)))
      (fun q hq hv => h q (List.mem_cons_of_mem _ hq) hv)
    by_cases he : eligName name = true
    · have hp := h (name, content) (List.mem_cons_self _ _) he
      simp only [expandZip, he, if_true, hp]
      rw [List.append_assoc] at htl
      simp [htl, List.filter_cons, he, List.append_assoc]
    · have he' : eligName name = false := by revert he; cases eligName name <;> simp
      simp [expandZip, he', List.filter_cons_of_neg, ih acc
        (fun q hq hv => h q (List.mem_cons_of_mem _ hq) hv)]

/-- C1: the claim says that with the API token present the Completion
Gateway Adapter never raises and maps every completion-tier failure to
the sentinel "LLM generation failed".  The code violates this for
transport failures: when requests.post raises, the local variable
`response` was never assigned, so the except handler's
`if response is not None` test raises UnboundLocalError to the caller.
This theorem evaluates the adapter at that failing input. -/
theorem C1_transport_failure_raises :
    get_llm_answer (some (pyStr "tok")) (fun _ => .postRaises) (pyStr "q") [] =
      (.error .unboundLocalError, [promptOf (pyStr "q") []]) := rfl

/-- C2: the claim says that when utf-8, utf-16 and cp1252 all fail,
try_decode raises a UnicodeDecodeError.  The code reaches its raise
statement on the single byte 0x81 (invalid utf-8 start byte, odd utf-16
length, unmapped cp1252 byte), but that statement constructs
UnicodeDecodeError with one argument where CPython requires five, so
what is actually raised is a TypeError, not a UnicodeDecodeError. -/
theorem C2_all_candidates_fail_raises_type_error :
    try_decode [129] = .error PyExc.typeError ∧
      PyExc.typeError ≠ PyExc.unicodeDecodeError :=
  ⟨rfl, by decide⟩

/-- C3 counterexample: the claim says a filename containing no dot
always fails with UnsupportedFormatError.  The filename "csv" contains
no dot, yet process_file takes the whole name as the suffix, matches
the csv branch, and succeeds, returning the decoded bytes. -/
theorem C3_counterexample :
    46 ∉ pyStr "csv" ∧
      (process_file (fun _ => .error .excelError) [104, 105] (pyStr "csv")).1 =
        .ok [104, 105] :=
  ⟨by decide, rfl⟩

/-- C3 amended: for a filename with no dot the whole lowercased name is
taken as the suffix, so the call fails with UnsupportedFormatError
naming that suffix exactly when the lowercased name is not itself one
of csv, json, xls, xlsx, txt, md; the Encoding Resolver is not entered
on the failing path. -/
theorem C3_no_dot_fails_unless_name_is_suffix
    (xl : Bytes → Except PyExc PyStr) (content : Bytes) (fname : PyStr)
    (hdot : 46 ∉ fname)
    (hn : pyLower fname ∉
      [pyStr "csv", pyStr "json", pyStr "xls", pyStr "xlsx", pyStr "txt", pyStr "md"]) :
    process_file xl content fname =
      (.error (.valueError (pyStr "Unsupported file type: ." ++ pyLower fname)), 0) := by
  simp only [List.mem_cons, List.mem_singleton, not_or] at hn
  obtain ⟨h1, h2, h3, h4, h5, h6, -⟩ := hn
  simp [process_file, splitDot_of_not_mem hdot, h1, h2, h3, h4, h5, h6]

theorem C3_no_dot_fails_unless_name_is_suffix_witness :
    46 ∉ pyStr "exe" ∧
      pyLower (pyStr "exe") ∉
        [pyStr "csv", pyStr "json", pyStr "xls", pyStr "xlsx", pyStr "txt", pyStr "md"] ∧
      process_file (fun _ => .error .excelError) [] (pyStr "exe") =
        (.error (.valueError (pyStr "Unsupported file type: ." ++ pyLower (pyStr "exe"))), 0) :=
  ⟨by decide, by decide,
    C3_no_dot_fails_unless_name_is_suffix (fun _ => .error .excelError) [] (pyStr "exe")
      (by decide) (by decide)⟩

/-- C4: with the credential absent the Completion Gateway Adapter
returns exactly the sentinel "Missing API token" and dispatches no
network request, for every question and every ingested text. -/
theorem C4_missing_token_no_network (net : PyStr → NetOutcome)
    (question file_data : PyStr) :
    get_llm_answer none net question file_data =
      (.ok (pyStr "Missing API token"), []) := rfl

/-- C6: whenever ingestion of the uploaded file fails with any
exception, the route returns the explicit error response built from
that exception, the completion adapter is never invoked, and no network
request is dispatched; the response carries no ingested text and no
answer. -/
theorem C6_ingestion_failure_aborts
    (xl : Bytes → Except PyExc PyStr)
    (unzip : Bytes → Except PyExc (List (PyStr × Bytes)))
    (net : PyStr → NetOutcome) (token : Option PyStr)
    (q : Option PyStr) (fname : PyStr) (fileBytes : Bytes) (e : PyExc)
    (h : parse_uploaded_file xl unzip fname fileBytes [] = .error e) :
    solve_assignment xl unzip net token q (some (fname, fileBytes)) =
      ⟨.errorResp e, false, []⟩ := by
  simp [solve_assignment, h]

theorem C6_ingestion_failure_aborts_witness :
    parse_uploaded_file (fun _ => .error .excelError) (fun _ => .ok [])
        (pyStr "a.exe") [] [] =
      .error (.valueError (pyStr "Unsupported file type: .exe")) ∧
    solve_assignment (fun _ => .error .excelError) (fun _ => .ok [])
        (fun _ => .postRaises) none none (some (pyStr "a.exe", [])) =
      ⟨.errorResp (.valueError (pyStr "Unsupported file type: .exe")), false, []⟩ :=
  ⟨rfl,
    C6_ingestion_failure_aborts (fun _ => .error .excelError) (fun _ => .ok [])
      (fun _ => .postRaises) none none (pyStr "a.exe") []
      (.valueError (pyStr "Unsupported file type: .exe")) rfl⟩

/-- C8: with no file supplied the route reaches the completion step
with file_data equal to the empty string (not an error), and the
assembled prompt is the fixed template with the question substituted
verbatim and nothing between the data-section marker and the trailing
answer marker. -/
theorem C8_no_file_empty_ingested
    (xl : Bytes → Except PyExc PyStr)
    (unzip : Bytes → Except PyExc (List (PyStr × Bytes)))
    (net : PyStr → NetOutcome) (token : Option PyStr) (q : PyStr) :
    solve_assignment xl unzip net token (some q) none = answerStep token net q [] ∧
    promptOf q [] = promptPre ++ q ++ (promptMid ++ promptTail) ∧
    ∃ pre post, promptOf q [] = pre ++ q ++ post := by
  refine ⟨rfl, by simp [promptOf], ⟨promptPre, promptMid ++ promptTail, by simp [promptOf]⟩⟩

/-- C9: any filename whose lowercased substring after the last dot is
not one of the six supported suffixes makes process_file fail with an
UnsupportedFormatError whose message names the rejected suffix after a
dot, and the Encoding Resolver is never entered (second component 0). -/
theorem C9_unsupported_suffix_rejected
    (xl : Bytes → Except PyExc PyStr) (content : Bytes) (fname : PyStr)
    (h : pyLower ((splitDot fname).getLastD []) ∉
      [pyStr "csv", pyStr "json", pyStr "xls", pyStr "xlsx", pyStr "txt", pyStr "md"]) :
    process_file xl content fname =
      (.error (.valueError
        (pyStr "Unsupported file type: ." ++ pyLower ((splitDot fname).getLastD []))), 0) := by
  simp only [List.mem_cons, List.mem_singleton, not_or] at h
  obtain ⟨h1, h2, h3, h4, h5, h6, -⟩ := h
  simp only [List.getLastD_eq_getLast?] at h1 h2 h3 h4 h5 h6 ⊢
  simp [process_file, h1, h2, h3, h4, h5, h6]

theorem C9_unsupported_suffix_rejected_witness :
    pyLower ((splitDot (pyStr "payload.EXE")).getLastD []) ∉
      [pyStr "csv", pyStr "json", pyStr "xls", pyStr "xlsx", pyStr "txt", pyStr "md"] ∧
    process_file (fun _ => .error .excelError) [0] (pyStr "payload.EXE") =
      (.error (.valueError
        (pyStr "Unsupported file type: ." ++
          pyLower ((splitDot (pyStr "payload.EXE")).getLastD []))), 0) :=
  ⟨by decide,
    C9_unsupported_suffix_rejected (fun _ => .error .excelError) [0]
      (pyStr "payload.EXE") (by decide)⟩

/-- C10: a request whose form data omits the question field behaves
exactly like one carrying the empty question: the field defaults to the
empty string and the rest of the handler is unchanged. -/
theorem C10_missing_question_defaults_empty
    (xl : Bytes → Except PyExc PyStr)
    (unzip : Bytes → Except PyExc (List (PyStr × Bytes)))
    (net : PyStr → NetOutcome) (token : Option PyStr)
    (file : Option (PyStr × Bytes)) :
    solve_assignment xl unzip net token none file =
      solve_assignment xl unzip net token (some (pyStr "")) file := rfl

theorem suffix_getLast? {l₁ l₂ : List Nat} (h : l₁ <:+ l₂) (hne : l₁ ≠ []) :
    l₂.getLast? = l₁.getLast? := by
  obtain ⟨t, rfl⟩ := h
  exact List.getLast?_append_of_ne_nil t hne

theorem zip_member_never_eligible :
    ∀ name : PyStr, (pyStr ".zip").isSuffixOf (pyLower name) = true →
      eligName name = false := by
  intro name h
  by_contra hne
  have he : eligName name = true := by revert hne; cases eligName name <;> simp
  rcases List.any_eq_true.mp he with ⟨suf, hmem, hsuf⟩
  have hz : pyStr ".zip" <:+ pyLower name := List.isSuffixOf_iff_suffix.mp h
  have hs : suf <:+ pyLower name := List.isSuffixOf_iff_suffix.mp hsuf
  have h1 : (pyLower name).getLast? = (pyStr ".zip").getLast? :=
    suffix_getLast? hz (by decide)
  fin_cases hmem <;>
    · have h2 := suffix_getLast? hs (by decide)
      rw [h1] at h2
      exact absurd h2 (by decide)

/-- C5: expanding a zip container walks the member list in its native
enumeration order and produces exactly one section-headed entry per
member whose lowercased name ends in one of the six accepted content
suffixes, skipping every other member silently; and no member name
ending in the container suffix .zip is ever eligible, so nested
containers are among the skipped members. -/
theorem C5_zip_members_expansion
    (xl : Bytes → Except PyExc PyStr) (members : List (PyStr × Bytes))
    (t : PyStr × Bytes → PyStr) (fname : PyStr) (fileBytes : Bytes)
    (hz : (pyStr ".zip").isSuffixOf (pyLower fname) = true)
    (h : ∀ p ∈ members, eligName p.1 = true → (process_file xl p.2 p.1).1 = .ok (t p)) :
    parse_uploaded_file xl (fun _ => .ok members) fname fileBytes [] =
      .ok (((members.filter fun p => eligName p.1).map
        fun p => fileHeader p.1 ++ t p).flatten) ∧
    ∀ name : PyStr, (pyStr ".zip").isSuffixOf (pyLower name) = true →
      eligName name = false := by
  constructor
  · simp only [parse_uploaded_file, hz, if_true]
    simpa using expandZip_spec xl t members [] h
  · exact zip_member_never_eligible

theorem C5_zip_members_expansion_witness :
    (pyStr ".zip").isSuffixOf (pyLower (pyStr "Archive.ZIP")) = true ∧
    (∀ p ∈ [(pyStr "data.csv", ([120] : Bytes)), (pyStr "notes.exe", [121]),
        (pyStr "inner.zip", [122])],
      eligName p.1 = true →
        (process_file (fun _ => .error .excelError) p.2 p.1).1 = .ok [120]) ∧
    parse_uploaded_file (fun _ => .error .excelError)
        (fun _ => .ok [(pyStr "data.csv", [120]), (pyStr "notes.exe", [121]),
          (pyStr "inner.zip", [122])])
        (pyStr "Archive.ZIP") [] [] =
      .ok ((([(pyStr "data.csv", ([120] : Bytes)), (pyStr "notes.exe", [121]),
          (pyStr "inner.zip", [122])].filter fun p => eligName p.1).map
        fun p => fileHeader p.1 ++ (fun _ => [120]) p).flatten) := by
  have hb : ∀ p ∈ [(pyStr "data.csv", ([120] : Bytes)), (pyStr "notes.exe", [121]),
      (pyStr "inner.zip", [122])],
      eligName p.1 = true →
        (process_file (fun _ => .error .excelError) p.2 p.1).1 = .ok [120] := by
    intro p hp
    fin_cases hp <;> intro h
    · rfl
    · exact absurd h (by decide)
    · exact absurd h (by decide)
  exact ⟨by decide, hb,
    (C5_zip_members_expansion (fun _ => .error .excelError)
      [(pyStr "data.csv", [120]), (pyStr "notes.exe", [121]), (pyStr "inner.zip", [122])]
      (fun _ => [120]) (pyStr "Archive.ZIP") [] (by decide) hb).1⟩

theorem hexVal_hexDigitChar : ∀ d, d < 16 → hexVal (hexDigitChar d) = some d := by decide

theorem hex4Val_hex4 {n : Nat} (h : n < 0x10000) :
    hex4Val (hexDigitChar (n / 4096 % 16)) (hexDigitChar (n / 256 % 16))
      (hexDigitChar (n / 16 % 16)) (hexDigitChar (n % 16)) = some n := by
  simp only [hex4Val,
    hexVal_hexDigitChar _ (show n / 4096 % 16 < 16 by omega),
    hexVal_hexDigitChar _ (show n / 256 % 16 < 16 by omega),
    hexVal_hexDigitChar _ (show n / 16 % 16 < 16 by omega),
    hexVal_hexDigitChar _ (show n % 16 < 16 by omega)]
  congr 1
  omega

theorem hexVal_lt {c x : Nat} (h : hexVal c = some x) : x < 16 := by
  unfold hexVal at h
  split_ifs at h <;> simp_all <;> omega

theorem hex4Val_lt {a b c d u : Nat} (h : hex4Val a b c d = some u) : u < 0x10000 := by
  unfold hex4Val at h
  cases ha : hexVal a with
  | none => simp [ha] at h
  | some x =>
    cases hb : hexVal b with
    | none => simp [ha, hb] at h
    | some y =>
      cases hc : hexVal c with
      | none => simp [ha, hb, hc] at h
      | some z =>
        cases hd : hexVal d with
        | none => simp [ha, hb, hc, hd] at h
        | some w =>
          simp [ha, hb, hc, hd] at h
          have := hexVal_lt ha
          have := hexVal_lt hb
          have := hexVal_lt hc
          have := hexVal_lt hd
          omega

theorem digitsToNat_append_single (l : PyStr) (d : Nat) :
    digitsToNat (l ++ [d]) = digitsToNat l * 10 + (d - 48) := by
  simp [digitsToNat, List.foldl_append]

theorem natDigitsF_spec :
    ∀ n fuel, n ≤ fuel →
      (∀ c ∈ natDigitsF fuel n, isDigit c = true) ∧
      natDigitsF fuel n ≠ [] ∧
      digitsToNat (natDigitsF fuel n) = n ∧
      (1 ≤ n → ∀ c, (natDigitsF fuel n).head? = some c → c ≠ 48) := by
  intro n
  induction n using Nat.strong_induction_on with
  | _ n ih =>
    intro fuel hf
    match n, fuel with
    | 0, fuel =>
      refine ⟨?_, ?_, ?_, ?_⟩
      · intro c hc
        simp [natDigitsF] at hc
        simp [hc, isDigit]
      · simp [natDigitsF]
      · simp [natDigitsF, digitsToNat]
      · omega
    | n + 1, 0 => omega
    | n + 1, fuel + 1 =>
      by_cases h10 : n + 1 < 10
      · refine ⟨?_, ?_, ?_, ?_⟩
        · intro c hc
          simp [natDigitsF, h10] at hc
          simp [hc, isDigit]
          omega
        · simp [natDigitsF, h10]
        · simp [natDigitsF, h10, digitsToNat]
        · intro _ c hc
          simp [natDigitsF, h10] at hc
          omega
      · have hq : (n + 1) / 10 < n + 1 := Nat.div_lt_self (by omega) (by omega)
        have hq' : (n + 1) / 10 ≤ fuel := by omega
        obtain ⟨ihd, ihn, ihv, ihh⟩ := ih ((n + 1) / 10) hq fuel hq'
        have heq : natDigitsF (fuel + 1) (n + 1) =
            natDigitsF fuel ((n + 1) / 10) ++ [48 + (n + 1) % 10] := by
          simp [natDigitsF, h10]
        refine ⟨?_, ?_, ?_, ?_⟩
        · intro c hc
          rw [heq] at hc
          rcases List.mem_append.mp hc with hc | hc
          · exact ihd c hc
          · simp at hc
            simp [hc, isDigit]
            omega
        · rw [heq]; simp
        · rw [heq, digitsToNat_append_single, ihv]
          omega
        · intro _ c hc
          obtain ⟨c0, t0, h0⟩ := List.exists_cons_of_ne_nil ihn
          rw [heq, h0] at hc
          simp at hc
          have := ihh (by omega) c0 (by rw [h0]; rfl)
          omega

theorem natDigits_spec (n : Nat) :
    (∀ c ∈ natDigits n, isDigit c = true) ∧
    natDigits n ≠ [] ∧
    digitsToNat (natDigits n) = n ∧
    (1 ≤ n → ∀ c, (natDigits n).head? = some c → c ≠ 48) :=
  natDigitsF_spec n n le_rfl

theorem takeDigits_append {ds r : PyStr} (hd : ∀ c ∈ ds, isDigit c = true)
    (hr : ∀ c, r.head? = some c → isDigit c = false) :
    takeDigits (ds ++ r) = (ds, r) := by
  induction ds with
  | nil =>
    cases r with
    | nil => rfl
    | cons c t => simp [takeDigits, hr c rfl]
  | cons c t ihds =>
    simp only [List.cons_append, takeDigits, hd c (List.mem_cons_self c t), if_true]
    simp [ihds (fun x hx => hd x (List.mem_cons_of_mem _ hx))]

theorem skipWs_ws_append {ws : PyStr} (h : isWsList ws = true) (l : PyStr) :
    skipWs (ws ++ l) = skipWs l := by
  induction ws with
  | nil => simp
  | cons c t ih =>
    simp only [isWsList, List.all_cons, Bool.and_eq_true] at h
    simp only [List.cons_append, skipWs, h.1, if_true]
    exact ih (by simp [isWsList, h.2])

theorem skipWs_cons_not_ws {c : Nat} (h : isWs c = false) (l : PyStr) :
    skipWs (c :: l) = c :: l := by
  simp [skipWs, h]


theorem natDigits_head_cases (n : Nat) :
    ∃ c0 t0, natDigits n = c0 :: t0 ∧ isDigit c0 = true ∧
      (decide (c0 = 48) && !t0.isEmpty) = false ∧ digitsToNat (c0 :: t0) = n := by
  obtain ⟨hdg, hne, hval, hhd⟩ := natDigits_spec n
  obtain ⟨c0, t0, h0⟩ := List.exists_cons_of_ne_nil hne
  refine ⟨c0, t0, h0, hdg c0 (by rw [h0]; exact List.mem_cons_self _ _), ?_, by rw [← h0, hval]⟩
  rcases Nat.eq_zero_or_pos n with hn | hn
  · subst hn
    have h00 : ([48] : PyStr) = c0 :: t0 := h0
    injection h00 with h1 h2
    subst h1; subst h2
    rfl
  · have h48 := hhd hn c0 (by rw [h0]; rfl)
    simp [h48]


theorem parseNum_intDigits (m : Int) (rest : PyStr)
    (hr : ∀ c, rest.head? = some c →
      isDigit c = false ∧ c ≠ 46 ∧ c ≠ 101 ∧ c ≠ 69) :
    parseNum (intDigits m ++ rest) = some (m, rest) := by
  have hB : ¬((rest.head? = some 46 ∨ rest.head? = some 101) ∨ rest.head? = some 69) := by
    cases rest with
    | nil => simp
    | cons c t =>
      obtain ⟨-, h46, h101, h69⟩ := hr c rfl
      simp [h46, h101, h69]
  have hrd : ∀ c, rest.head? = some c → isDigit c = false := fun c h => (hr c h).1
  match m with
  | .ofNat n =>
    obtain ⟨c0, t0, h0, hc0, hlead, hval⟩ := natDigits_head_cases n
    have hA : ¬(c0 = 48 ∧ ¬t0 = []) := by simpa using hlead
    have htake : takeDigits (natDigits n ++ rest) = (natDigits n, rest) :=
      takeDigits_append (natDigits_spec n).1 hrd
    rw [h0] at htake
    simp only [List.cons_append] at htake
    have hc045 : ¬(c0 = 45) := by simp [isDigit] at hc0; omega
    show parseNum (natDigits n ++ rest) = some (Int.ofNat n, rest)
    rw [h0]
    unfold parseNum
    simp [hc045, htake, hA, hB, hval]
  | .negSucc k =>
    obtain ⟨c0, t0, h0, hc0, hlead, hval⟩ := natDigits_head_cases (k + 1)
    have hA : ¬(c0 = 48 ∧ ¬t0 = []) := by simpa using hlead
    have htake : takeDigits (natDigits (k + 1) ++ rest) = (natDigits (k + 1), rest) :=
      takeDigits_append (natDigits_spec (k + 1)).1 hrd
    rw [h0] at htake
    simp only [List.cons_append] at htake
    show parseNum (45 :: (natDigits (k + 1) ++ rest)) = some (Int.negSucc k, rest)
    rw [h0]
    unfold parseNum
    simp [htake, hA, hB, hval]
    simp [Int.negSucc_eq]


theorem escShort_scalar {e u : Nat} (h : escShort e = some u) : isScalar u = true := by
  unfold escShort at h
  split_ifs at h <;> cases h <;> decide

theorem unescapePair_scalar {u w : Nat} {r2 r3 : PyStr} (hu : 0xD800 ≤ u ∧ u ≤ 0xDBFF)
    (h : unescapePair u r2 = some (w, r3)) : isScalar w = true := by
  rcases r2 with _ | ⟨e2, _ | ⟨e3, _ | ⟨a2, _ | ⟨b2, _ | ⟨c2, _ | ⟨d2, r3'⟩⟩⟩⟩⟩⟩
  · exact absurd h (by simp [unescapePair])
  · exact absurd h (by simp [unescapePair])
  · exact absurd h (by simp [unescapePair])
  · exact absurd h (by simp [unescapePair])
  · exact absurd h (by simp [unescapePair])
  · exact absurd h (by simp [unescapePair])
  simp only [unescapePair] at h
  by_cases h1 : e2 = 92 ∧ e3 = 117
  · rw [if_pos h1] at h
    rcases hx : hex4Val a2 b2 c2 d2 with _ | v
    · rw [hx] at h; exact absurd h (by simp)
    · rw [hx, Option.some_bind] at h
      have hv := hex4Val_lt hx
      by_cases h2 : 0xDC00 ≤ v ∧ v ≤ 0xDFFF
      · rw [if_pos h2] at h
        injection h with h'
        rw [Prod.mk.injEq] at h'
        obtain ⟨hw, -⟩ := h'
        rw [← hw]
        simp only [isScalar, Bool.and_eq_true, Bool.not_eq_true', decide_eq_true_eq,
          Bool.and_eq_false_iff, decide_eq_false_iff_not]
        omega
      · rw [if_neg h2] at h; exact absurd h (by simp)
  · rw [if_neg h1] at h; exact absurd h (by simp)

theorem unescapeU_scalar {r1 : PyStr} {u : Nat} {r2 : PyStr}
    (h : unescapeU r1 = some (u, r2)) : isScalar u = true := by
  rcases r1 with _ | ⟨a, _ | ⟨b, _ | ⟨c, _ | ⟨d, r2'⟩⟩⟩⟩
  · exact absurd h (by simp [unescapeU])
  · exact absurd h (by simp [unescapeU])
  · exact absurd h (by simp [unescapeU])
  · exact absurd h (by simp [unescapeU])
  simp only [unescapeU] at h
  rcases hx : hex4Val a b c d with _ | v
  · rw [hx] at h; exact absurd h (by simp)
  · rw [hx, Option.some_bind] at h
    have hv := hex4Val_lt hx
    by_cases hb1 : 0xD800 ≤ v ∧ v ≤ 0xDBFF
    · rw [if_pos hb1] at h
      exact unescapePair_scalar hb1 h
    · rw [if_neg hb1] at h
      by_cases hb2 : 0xDC00 ≤ v ∧ v ≤ 0xDFFF
      · rw [if_pos hb2] at h; exact absurd h (by simp)
      · rw [if_neg hb2] at h
        injection h with h'
        rw [Prod.mk.injEq] at h'
        obtain ⟨hw, -⟩ := h'
        rw [← hw]
        simp only [isScalar, Bool.and_eq_true, Bool.not_eq_true', decide_eq_true_eq,
          Bool.and_eq_false_iff, decide_eq_false_iff_not]
        omega

theorem unescape1_scalar {r : PyStr} {u : Nat} {r2 : PyStr}
    (h : unescape1 r = some (u, r2)) : isScalar u = true := by
  cases r with
  | nil => exact absurd h (by simp [unescape1])
  | cons e rr =>
    simp only [unescape1] at h
    by_cases h117 : e = 117
    · rw [if_pos h117] at h
      exact unescapeU_scalar h
    · rw [if_neg h117] at h
      rcases hs : escShort e with _ | v
      · rw [hs] at h; exact absurd h (by simp)
      · rw [hs, Option.some_bind] at h
        injection h with h'
        rw [Prod.mk.injEq] at h'
        obtain ⟨hw, -⟩ := h'
        rw [← hw]
        exact escShort_scalar hs

theorem unescapeU_nonsurr {c : Nat} (tail : PyStr) (hlt : c < 0x10000)
    (hns : ¬(0xD800 ≤ c ∧ c ≤ 0xDFFF)) :
    unescapeU (hex4 c ++ tail) = some (c, tail) := by
  simp only [hex4, List.cons_append, List.nil_append, unescapeU]
  rw [hex4Val_hex4 hlt, Option.some_bind]
  rw [if_neg (by omega : ¬(0xD800 ≤ c ∧ c ≤ 0xDBFF)),
    if_neg (by omega : ¬(0xDC00 ≤ c ∧ c ≤ 0xDFFF))]

theorem unescapePair_astral {c : Nat} (tail : PyStr) (hge : 0x10000 ≤ c)
    (hlt : c < 0x110000) :
    unescapePair (0xD800 + (c - 0x10000) / 0x400)
        (92 :: 117 :: hex4 (0xDC00 + (c - 0x10000) % 0x400) ++ tail) =
      some (c, tail) := by
  have hlo : (c - 0x10000) % 0x400 ≤ 0x3FF := by
    have := Nat.mod_lt (c - 0x10000) (show 0 < 0x400 by omega)
    omega
  simp only [hex4, List.cons_append, List.nil_append, unescapePair]
  rw [if_pos (by decide),
    hex4Val_hex4 (show 0xDC00 + (c - 0x10000) % 0x400 < 0x10000 by omega),
    Option.some_bind,
    if_pos (by omega : 0xDC00 ≤ 0xDC00 + (c - 0x10000) % 0x400 ∧
      0xDC00 + (c - 0x10000) % 0x400 ≤ 0xDFFF)]
  have hval : 0x10000 + (0xD800 + (c - 0x10000) / 0x400 - 0xD800) * 0x400 +
      (0xDC00 + (c - 0x10000) % 0x400 - 0xDC00) = c := by omega
  rw [hval]

theorem unescapeU_astral {c : Nat} (tail : PyStr) (hge : 0x10000 ≤ c)
    (hlt : c < 0x110000) :
    unescapeU (hex4 (0xD800 + (c - 0x10000) / 0x400) ++
        (92 :: 117 :: hex4 (0xDC00 + (c - 0x10000) % 0x400)) ++ tail) =
      some (c, tail) := by
  have hhi : (c - 0x10000) / 0x400 ≤ 0x3FF := by omega
  have h1 : hex4 (0xD800 + (c - 0x10000) / 0x400) ++
      (92 :: 117 :: hex4 (0xDC00 + (c - 0x10000) % 0x400)) ++ tail =
      hex4 (0xD800 + (c - 0x10000) / 0x400) ++
      (92 :: 117 :: hex4 (0xDC00 + (c - 0x10000) % 0x400) ++ tail) := by
    simp [List.append_assoc]
  rw [h1]
  simp only [hex4, List.cons_append, List.nil_append, unescapeU]
  rw [hex4Val_hex4 (show 0xD800 + (c - 0x10000) / 0x400 < 0x10000 by omega),
    Option.some_bind,
    if_pos (by omega : 0xD800 ≤ 0xD800 + (c - 0x10000) / 0x400 ∧
      0xD800 + (c - 0x10000) / 0x400 ≤ 0xDBFF)]
  exact unescapePair_astral tail hge hlt

theorem unescape1_esc (c : Nat) (tail : PyStr) (hc : isScalar c = true)
    (hor : c = 34 ∨ c = 92 ∨ ¬(32 ≤ c ∧ c ≤ 126)) :
    ∃ e, escChar c = 92 :: e ∧ unescape1 (e ++ tail) = some (c, tail) := by
  simp only [isScalar, Bool.and_eq_true, Bool.not_eq_true', decide_eq_true_eq,
    decide_eq_false_iff_not] at hc
  obtain ⟨hscal, hsurr⟩ := hc
  have hsurr' : ¬(0xD800 ≤ c ∧ c ≤ 0xDFFF) := by simpa using hsurr
  by_cases h34 : c = 34
  · subst h34; exact ⟨[34], rfl, rfl⟩
  · by_cases h92 : c = 92
    · subst h92; exact ⟨[92], rfl, rfl⟩
    · by_cases h8 : c = 8
      · subst h8; exact ⟨[98], rfl, rfl⟩
      · by_cases h9 : c = 9
        · subst h9; exact ⟨[116], rfl, rfl⟩
        · by_cases h10 : c = 10
          · subst h10; exact ⟨[110], rfl, rfl⟩
          · by_cases h12 : c = 12
            · subst h12; exact ⟨[102], rfl, rfl⟩
            · by_cases h13 : c = 13
              · subst h13; exact ⟨[114], rfl, rfl⟩
              · have hrange : ¬(32 ≤ c ∧ c ≤ 126) := by
                  rcases hor with h | h | h
                  · exact absurd h h34
                  · exact absurd h h92
                  · exact h
                by_cases hlt : c < 0x10000
                · refine ⟨117 :: hex4 c, ?_, ?_⟩
                  · by_cases hlt32 : c < 32
                    · simp [escChar, h34, h92, h8, h9, h10, h12, h13, hlt32]
                    · simp [escChar, h34, h92, h8, h9, h10, h12, h13, hlt32,
                        show ¬(c ≤ 126) by omega, hlt]
                  · show unescape1 (117 :: (hex4 c ++ tail)) = some (c, tail)
                    simp only [unescape1, if_pos rfl]
                    exact unescapeU_nonsurr tail hlt hsurr'
                · refine ⟨117 :: (hex4 (0xD800 + (c - 0x10000) / 0x400) ++
                      (92 :: 117 :: hex4 (0xDC00 + (c - 0x10000) % 0x400))), ?_, ?_⟩
                  · simp [escChar, h34, h92, h8, h9, h10, h12, h13,
                      show ¬(c < 32) by omega, show ¬(c ≤ 126) by omega, hlt]
                  · show unescape1 (117 :: (_ ++ tail)) = some (c, tail)
                    simp only [unescape1, if_pos rfl]
                    exact unescapeU_astral tail (by omega) hscal

theorem parseStrF_escChar (c : Nat) (tail : PyStr) (fuel : Nat)
    (hc : isScalar c = true) (hf : (escChar c ++ tail).length ≤ fuel) :
    ∃ f', tail.length ≤ f' ∧
      parseStrF fuel (escChar c ++ tail) =
        (parseStrF f' tail).map (fun p => (c :: p.1, p.2)) := by
  by_cases hlit : 32 ≤ c ∧ c ≤ 126 ∧ ¬(c = 34) ∧ ¬(c = 92)
  · obtain ⟨hge, hle, h34, h92⟩ := hlit
    have hesc : escChar c = [c] := by
      simp [escChar, h34, h92, show ¬(c = 8) by omega, show ¬(c = 9) by omega,
        show ¬(c = 10) by omega, show ¬(c = 12) by omega, show ¬(c = 13) by omega,
        show ¬(c < 32) by omega, hle]
    rw [hesc] at hf ⊢
    cases fuel with
    | zero => simp at hf
    | succ f =>
      refine ⟨f, by simp at hf; omega, ?_⟩
      have hcs := hc
      simp only [isScalar, Bool.and_eq_true, Bool.not_eq_true', decide_eq_true_eq,
        decide_eq_false_iff_not] at hcs
      simp only [List.cons_append, List.nil_append]
      rw [parseStrF, if_neg h34, if_neg h92,
        if_pos ⟨hge, hcs.1, by simpa using hcs.2⟩]
  · have hor : c = 34 ∨ c = 92 ∨ ¬(32 ≤ c ∧ c ≤ 126) := by
      by_cases h34 : c = 34
      · exact Or.inl h34
      · by_cases h92 : c = 92
        · exact Or.inr (Or.inl h92)
        · refine Or.inr (Or.inr ?_)
          intro hcc
          exact hlit ⟨hcc.1, hcc.2, h34, h92⟩
    obtain ⟨e, he, hu⟩ := unescape1_esc c tail hc hor
    rw [he] at hf ⊢
    cases fuel with
    | zero => simp at hf
    | succ f =>
      refine ⟨f, ?_, ?_⟩
      · simp at hf
        omega
      · simp only [List.cons_append]
        rw [parseStrF, if_neg (by omega : ¬(92 : Nat) = 34), if_pos rfl, hu,
          Option.some_bind]

theorem parseStrF_escBody : ∀ (s : PyStr) (fuel : Nat) (rest : PyStr),
    wfStr s = true → (escBody s ++ [34] ++ rest).length ≤ fuel →
    parseStrF fuel (escBody s ++ [34] ++ rest) = some (s, rest) := by
  intro s
  induction s with
  | nil =>
    intro fuel rest _ hf
    cases fuel with
    | zero => simp [escBody] at hf
    | succ f => rfl
  | cons c s' ih =>
    intro fuel rest hwf hf
    simp only [wfStr, List.all_cons, Bool.and_eq_true] at hwf
    have hb : escBody (c :: s') ++ [34] ++ rest =
        escChar c ++ (escBody s' ++ [34] ++ rest) := by
      simp [escBody, List.append_assoc]
    rw [hb] at hf ⊢
    obtain ⟨f', hf', heq⟩ := parseStrF_escChar c (escBody s' ++ [34] ++ rest) fuel hwf.1 hf
    rw [heq, ih f' rest (by simp [wfStr, hwf.2]) hf']
    rfl

theorem parseStrF_wf : ∀ (fuel : Nat) (s cs r : PyStr),
    parseStrF fuel s = some (cs, r) → wfStr cs = true := by
  intro fuel
  induction fuel with
  | zero =>
    intro s cs r h
    cases s with
    | nil => exact absurd h (by simp [parseStrF])
    | cons c rr => exact absurd h (by simp [parseStrF])
  | succ f ih =>
    intro s cs r h
    cases s with
    | nil => exact absurd h (by simp [parseStrF])
    | cons c rr =>
      rw [parseStrF] at h
      by_cases h34 : c = 34
      · rw [if_pos h34] at h
        injection h with h'
        rw [Prod.mk.injEq] at h'
        obtain ⟨hc, -⟩ := h'
        rw [← hc]
        rfl
      · rw [if_neg h34] at h
        by_cases h92 : c = 92
        · rw [if_pos h92] at h
          rcases hu : unescape1 rr with _ | ⟨u, r2⟩
          · rw [hu] at h; exact absurd h (by simp)
          · rw [hu, Option.some_bind] at h
            rcases hp : parseStrF f r2 with _ | ⟨p1, p2⟩
            · rw [hp] at h; exact absurd h (by simp)
            · rw [hp, Option.map_some'] at h
              injection h with h'
              rw [Prod.mk.injEq] at h'
              obtain ⟨hc, -⟩ := h'
              rw [← hc]
              simp only [wfStr, List.all_cons, Bool.and_eq_true]
              exact ⟨unescape1_scalar hu, ih r2 p1 p2 hp⟩
        · rw [if_neg h92] at h
          by_cases hlit : 32 ≤ c ∧ (c < 0x110000 ∧ ¬(0xD800 ≤ c ∧ c ≤ 0xDFFF))
          · rw [if_pos hlit] at h
            rcases hp : parseStrF f rr with _ | ⟨p1, p2⟩
            · rw [hp] at h; exact absurd h (by simp)
            · rw [hp, Option.map_some'] at h
              injection h with h'
              rw [Prod.mk.injEq] at h'
              obtain ⟨hc, -⟩ := h'
              rw [← hc]
              simp only [wfStr, List.all_cons, Bool.and_eq_true]
              refine ⟨?_, ih rr p1 p2 hp⟩
              simp only [isScalar, Bool.and_eq_true, Bool.not_eq_true', decide_eq_true_eq,
                Bool.and_eq_false_iff, decide_eq_false_iff_not]
              omega
          · rw [if_neg hlit] at h
            exact absurd h (by simp)

theorem expectLit_self : ∀ (ps rest : PyStr), expectLit ps (ps ++ rest) = some rest := by
  intro ps
  induction ps with
  | nil => intro rest; rfl
  | cons p ps ih => intro rest; simp [expectLit, ih]

theorem expectLit_eq : ∀ (ps r r2 : PyStr), expectLit ps r = some r2 → r = ps ++ r2 := by
  intro ps
  induction ps with
  | nil => intro r r2 h; cases h; rfl
  | cons p ps ih =>
    intro r r2 h
    cases r with
    | nil => exact absurd h (by simp [expectLit])
    | cons c rr =>
      simp only [expectLit] at h
      by_cases hc : c = p
      · rw [if_pos hc] at h
        rw [hc, ih rr r2 h]
        rfl
      · rw [if_neg hc] at h
        exact absurd h (by simp)

theorem stopOk_head {rest : PyStr} (h : stopOk rest = true) :
    ∀ c, rest.head? = some c → isDigit c = false ∧ c ≠ 46 ∧ c ≠ 101 ∧ c ≠ 69 := by
  intro c hc
  cases rest with
  | nil => exact absurd hc (by simp)
  | cons a t =>
    injection hc with hc
    subst hc
    simp only [stopOk, Bool.or_eq_true, decide_eq_true_eq] at h
    rcases h with (h | h) | h <;> subst h <;> exact ⟨by decide, by decide, by decide, by decide⟩

theorem wfArr_append_single {xs : List Json} {x : Json}
    (hxs : wfArr xs = true) (hx : wfJson x = true) : wfArr (xs ++ [x]) = true := by
  induction xs with
  | nil => simp [wfArr, hx]
  | cons y ys ih =>
    simp only [wfArr, Bool.and_eq_true] at hxs
    simp only [List.cons_append, wfArr, Bool.and_eq_true]
    exact ⟨hxs.1, ih hxs.2⟩

theorem wfPairs_append_single {kvs : List (PyStr × Json)} {k : PyStr} {v : Json}
    (hkvs : wfPairs kvs = true) (hk : wfStr k = true) (hv : wfJson v = true) :
    wfPairs (kvs ++ [(k, v)]) = true := by
  induction kvs with
  | nil => simp [wfPairs, hk, hv]
  | cons p ps ih =>
    obtain ⟨k', v'⟩ := p
    simp only [wfPairs, Bool.and_eq_true] at hkvs
    simp only [List.cons_append, wfPairs, Bool.and_eq_true]
    exact ⟨hkvs.1, ih hkvs.2⟩

theorem insertKey_of_not_mem : ∀ (acc : List (PyStr × Json)) (k : PyStr) (v : Json),
    k ∉ acc.map Prod.fst → insertKey acc k v = acc ++ [(k, v)] := by
  intro acc
  induction acc with
  | nil => intro k v _; rfl
  | cons p t ih =>
    intro k v hk
    obtain ⟨k', v'⟩ := p
    simp only [List.map_cons, List.mem_cons, not_or] at hk
    have hne : ¬(k' = k) := fun h => hk.1 h.symm
    simp only [insertKey, if_neg hne, List.cons_append]
    rw [ih k v hk.2]

theorem keys_insertKey : ∀ (acc : List (PyStr × Json)) (k : PyStr) (v : Json),
    (insertKey acc k v).map Prod.fst =
      if k ∈ acc.map Prod.fst then acc.map Prod.fst else acc.map Prod.fst ++ [k] := by
  intro acc
  induction acc with
  | nil => intro k v; simp [insertKey]
  | cons p t ih =>
    intro k v
    obtain ⟨k', v'⟩ := p
    by_cases hk : k' = k
    · subst hk
      simp [insertKey]
    · simp only [insertKey, if_neg hk, List.map_cons, ih k v]
      by_cases hm : k ∈ t.map Prod.fst
      · rw [if_pos hm, if_pos (by simp [hm])]
      · rw [if_neg hm, if_neg (by simp only [List.mem_cons, not_or]; exact ⟨fun h => hk h.symm, hm⟩), List.cons_append]

theorem nodupKeys_append_single {A : List PyStr} {k : PyStr}
    (hA : nodupKeys A = true) (hk : k ∉ A) : nodupKeys (A ++ [k]) = true := by
  induction A with
  | nil => rfl
  | cons a t ih =>
    simp only [nodupKeys, Bool.and_eq_true, decide_eq_true_eq] at hA
    simp only [List.mem_cons, not_or] at hk
    simp only [List.cons_append, nodupKeys, Bool.and_eq_true, decide_eq_true_eq]
    refine ⟨?_, ih hA.2 hk.2⟩
    intro hmem
    rcases List.mem_append.mp hmem with h | h
    · exact hA.1 h
    · rw [List.mem_singleton] at h
      exact hk.1 h.symm

theorem insertKey_nodup {acc : List (PyStr × Json)} {k : PyStr} {v : Json}
    (h : nodupKeys (acc.map Prod.fst) = true) :
    nodupKeys ((insertKey acc k v).map Prod.fst) = true := by
  rw [keys_insertKey]
  by_cases hm : k ∈ acc.map Prod.fst
  · rw [if_pos hm]; exact h
  · rw [if_neg hm]; exact nodupKeys_append_single h hm

theorem insertKey_wfPairs : ∀ (acc : List (PyStr × Json)) (k : PyStr) (v : Json),
    wfPairs acc = true → wfStr k = true → wfJson v = true →
    wfPairs (insertKey acc k v) = true := by
  intro acc
  induction acc with
  | nil => intro k v _ hk hv; simp [insertKey, wfPairs, hk, hv]
  | cons p t ih =>
    intro k v hacc hk hv
    obtain ⟨k', v'⟩ := p
    simp only [wfPairs, Bool.and_eq_true] at hacc
    by_cases hkk : k' = k
    · simp only [insertKey, if_pos hkk, wfPairs, Bool.and_eq_true]
      exact ⟨⟨hacc.1.1, hv⟩, hacc.2⟩
    · simp only [insertKey, if_neg hkk, wfPairs, Bool.and_eq_true]
      exact ⟨hacc.1, ih k v hacc.2 hk hv⟩

theorem nodupKeys_mid : ∀ (A : List PyStr) (k : PyStr) (B : List PyStr),
    nodupKeys (A ++ k :: B) = true → k ∉ A := by
  intro A
  induction A with
  | nil => intro k B _; simp
  | cons a t ih =>
    intro k B h
    simp only [List.cons_append, nodupKeys, Bool.and_eq_true, decide_eq_true_eq] at h
    simp only [List.mem_cons, not_or]
    refine ⟨?_, ih k B h.2⟩
    intro hk
    subst hk
    exact h.1 (by simp)

theorem jsonDumps_head (v : Json) :
    ∃ c t, jsonDumps v = c :: t ∧ isWs c = false ∧ c ≠ 93 ∧ c ≠ 125 := by
  cases v with
  | null => exact ⟨110, _, rfl, by decide, by decide, by decide⟩
  | bool b => cases b with
    | true => exact ⟨116, _, rfl, by decide, by decide, by decide⟩
    | false => exact ⟨102, _, rfl, by decide, by decide, by decide⟩
  | num n =>
    cases n with
    | ofNat m =>
      obtain ⟨c0, t0, h0, hd, -, -⟩ := natDigits_head_cases m
      refine ⟨c0, t0, h0, ?_, ?_, ?_⟩ <;>
        · simp only [isDigit, Bool.and_eq_true, decide_eq_true_eq] at hd
          simp [isWs]
          omega
    | negSucc m => exact ⟨45, _, rfl, by decide, by decide, by decide⟩
  | str s => exact ⟨34, _, rfl, by decide, by decide, by decide⟩
  | arr xs => cases xs with
    | nil => exact ⟨91, _, rfl, by decide, by decide, by decide⟩
    | cons x t => exact ⟨91, _, rfl, by decide, by decide, by decide⟩
  | obj kvs => cases kvs with
    | nil => exact ⟨123, _, rfl, by decide, by decide, by decide⟩
    | cons p t => obtain ⟨k, v⟩ := p; exact ⟨123, _, rfl, by decide, by decide, by decide⟩

theorem parse_wf : ∀ fuel : Nat,
    (∀ s v r, parseVal fuel s = some (v, r) → wfJson v = true) ∧
    (∀ acc s v r, wfArr acc = true →
      parseArrItems fuel acc s = some (v, r) → wfJson v = true) ∧
    (∀ acc s v r, nodupKeys (acc.map Prod.fst) = true → wfPairs acc = true →
      parseObjItems fuel acc s = some (v, r) → wfJson v = true) := by
  intro fuel
  induction fuel with
  | zero =>
    refine ⟨?_, ?_, ?_⟩
    · intro s v r h; exact absurd h (by simp [parseVal])
    · intro acc s v r _ h; exact absurd h (by simp [parseArrItems])
    · intro acc s v r _ _ h; exact absurd h (by simp [parseObjItems])
  | succ f ih =>
    obtain ⟨ihV, ihA, ihO⟩ := ih
    refine ⟨?_, ?_, ?_⟩
    · intro s v r h
      rcases hs : skipWs s with - | ⟨c, rr⟩
      · simp only [parseVal, hs] at h
        exact absurd h (by simp)
      · simp only [parseVal, hs] at h
        by_cases h110 : c = 110
        · rw [if_pos h110] at h
          rcases he : expectLit [117, 108, 108] rr with - | r2 <;> rw [he] at h
          · exact absurd h (by simp)
          · rw [Option.map_some'] at h
            injection h with h'
            rw [Prod.mk.injEq] at h'
            obtain ⟨hv, -⟩ := h'
            rw [← hv]
            rfl
        · rw [if_neg h110] at h
          by_cases h116 : c = 116
          · rw [if_pos h116] at h
            rcases he : expectLit [114, 117, 101] rr with - | r2 <;> rw [he] at h
            · exact absurd h (by simp)
            · rw [Option.map_some'] at h
              injection h with h'
              rw [Prod.mk.injEq] at h'
              obtain ⟨hv, -⟩ := h'
              rw [← hv]
              rfl
          · rw [if_neg h116] at h
            by_cases h102 : c = 102
            · rw [if_pos h102] at h
              rcases he : expectLit [97, 108, 115, 101] rr with - | r2 <;> rw [he] at h
              · exact absurd h (by simp)
              · rw [Option.map_some'] at h
                injection h with h'
                rw [Prod.mk.injEq] at h'
                obtain ⟨hv, -⟩ := h'
                rw [← hv]
                rfl
            · rw [if_neg h102] at h
              by_cases h34 : c = 34
              · rw [if_pos h34] at h
                rcases hps : parseStr rr with - | p <;> rw [hps] at h
                · exact absurd h (by simp)
                · rw [Option.map_some'] at h
                  injection h with h'
                  rw [Prod.mk.injEq] at h'
                  obtain ⟨hv, -⟩ := h'
                  rw [← hv]
                  show wfStr p.1 = true
                  exact parseStrF_wf rr.length rr p.1 p.2 hps
              · rw [if_neg h34] at h
                by_cases h91 : c = 91
                · rw [if_pos h91] at h
                  rcases hs2 : skipWs rr with - | ⟨c2, r2⟩ <;> simp only [hs2] at h
                  · exact ihA [] rr v r rfl h
                  · by_cases h93 : c2 = 93
                    · rw [if_pos h93] at h
                      injection h with h'
                      rw [Prod.mk.injEq] at h'
                      obtain ⟨hv, -⟩ := h'
                      rw [← hv]
                      rfl
                    · rw [if_neg h93] at h
                      exact ihA [] rr v r rfl h
                · rw [if_neg h91] at h
                  by_cases h123 : c = 123
                  · rw [if_pos h123] at h
                    rcases hs2 : skipWs rr with - | ⟨c2, r2⟩ <;> simp only [hs2] at h
                    · exact ihO [] rr v r rfl rfl h
                    · by_cases h125 : c2 = 125
                      · rw [if_pos h125] at h
                        injection h with h'
                        rw [Prod.mk.injEq] at h'
                        obtain ⟨hv, -⟩ := h'
                        rw [← hv]
                        rfl
                      · rw [if_neg h125] at h
                        exact ihO [] rr v r rfl rfl h
                  · rw [if_neg h123] at h
                    by_cases hnum : c = 45 ∨ isDigit c = true
                    · rw [if_pos hnum] at h
                      rcases hpn : parseNum (c :: rr) with - | p <;> rw [hpn] at h
                      · exact absurd h (by simp)
                      · rw [Option.map_some'] at h
                        injection h with h'
                        rw [Prod.mk.injEq] at h'
                        obtain ⟨hv, -⟩ := h'
                        rw [← hv]
                        rfl
                    · rw [if_neg hnum] at h
                      exact absurd h (by simp)
    · intro acc s v r hacc h
      rcases hp : parseVal f s with - | p
      · simp only [parseArrItems, hp, Option.none_bind] at h
        exact absurd h (by simp)
      · simp only [parseArrItems, hp, Option.some_bind] at h
        have hx : wfJson p.1 = true := ihV s p.1 p.2 (by rw [hp])
        rcases hsw : skipWs p.2 with - | ⟨c, r2⟩ <;> simp only [hsw] at h
        · exact absurd h (by simp)
        by_cases hc : c = 44
        · rw [if_pos hc] at h
          exact ihA (acc ++ [p.1]) r2 v r (wfArr_append_single hacc hx) h
        · rw [if_neg hc] at h
          by_cases hc2 : c = 93
          · rw [if_pos hc2] at h
            injection h with h'
            rw [Prod.mk.injEq] at h'
            obtain ⟨hv, -⟩ := h'
            rw [← hv]
            show wfArr (acc ++ [p.1]) = true
            exact wfArr_append_single hacc hx
          · rw [if_neg hc2] at h
            exact absurd h (by simp)
    · intro acc s v r hnod hwf h
      rcases hs : skipWs s with - | ⟨c, rr⟩ <;> simp only [parseObjItems, hs] at h
      · exact absurd h (by simp)
      by_cases hc : c = 34
      · rw [if_pos hc] at h
        rcases hpk : parseStr rr with - | pk <;> rw [hpk] at h
        · exact absurd h (by simp)
        · rw [Option.some_bind] at h
          have hk : wfStr pk.1 = true := parseStrF_wf rr.length rr pk.1 pk.2 hpk
          rcases hsw : skipWs pk.2 with - | ⟨c2, r3⟩ <;> simp only [hsw] at h
          · exact absurd h (by simp)
          by_cases hc2 : c2 = 58
          · rw [if_pos hc2] at h
            rcases hpv : parseVal f r3 with - | pv <;> rw [hpv] at h
            · exact absurd h (by simp)
            · rw [Option.some_bind] at h
              have hv : wfJson pv.1 = true := ihV r3 pv.1 pv.2 (by rw [hpv])
              rcases hsw2 : skipWs pv.2 with - | ⟨c3, r5⟩ <;> simp only [hsw2] at h
              · exact absurd h (by simp)
              by_cases hc3 : c3 = 44
              · rw [if_pos hc3] at h
                exact ihO (insertKey acc pk.1 pv.1) r5 v r
                  (insertKey_nodup hnod) (insertKey_wfPairs acc pk.1 pv.1 hwf hk hv) h
              · rw [if_neg hc3] at h
                by_cases hc4 : c3 = 125
                · rw [if_pos hc4] at h
                  injection h with h'
                  rw [Prod.mk.injEq] at h'
                  obtain ⟨hv2, -⟩ := h'
                  rw [← hv2]
                  show (nodupKeys ((insertKey acc pk.1 pv.1).map Prod.fst) &&
                    wfPairs (insertKey acc pk.1 pv.1)) = true
                  rw [Bool.and_eq_true]
                  exact ⟨insertKey_nodup hnod, insertKey_wfPairs acc pk.1 pv.1 hwf hk hv⟩
                · rw [if_neg hc4] at h
                  exact absurd h (by simp)
          · rw [if_neg hc2] at h
            exact absurd h (by simp)
      · rw [if_neg hc] at h
        exact absurd h (by simp)

theorem stopOk_dumpsItems (xs : List Json) (rest : PyStr) :
    stopOk (dumpsItems xs ++ 93 :: rest) = true := by
  cases xs with
  | nil => rfl
  | cons y t => rfl

theorem stopOk_dumpsPairs (kvs : List (PyStr × Json)) (rest : PyStr) :
    stopOk (dumpsPairs kvs ++ 125 :: rest) = true := by
  cases kvs with
  | nil => rfl
  | cons p t => obtain ⟨k, v⟩ := p; rfl

theorem jsonDumps_length (v : Json) : 1 ≤ (jsonDumps v).length := by
  obtain ⟨c, t, h, -⟩ := jsonDumps_head v
  rw [h]
  simp

theorem escStr_length (s : PyStr) : 2 ≤ (escStr s).length := by
  simp [escStr]

theorem intDigits_head (n : Int) :
    ∃ c0 t0, intDigits n = c0 :: t0 ∧ (c0 = 45 ∨ isDigit c0 = true) := by
  cases n with
  | ofNat m =>
    obtain ⟨c0, t0, h0, hd, -, -⟩ := natDigits_head_cases m
    exact ⟨c0, t0, h0, Or.inr hd⟩
  | negSucc m => exact ⟨45, _, rfl, Or.inl rfl⟩

theorem parseStr_escBody (s rest : PyStr) (hs : wfStr s = true) :
    parseStr (escBody s ++ (34 :: rest)) = some (s, rest) := by
  have heq : escBody s ++ [34] ++ rest = escBody s ++ (34 :: rest) := by
    simp [List.append_assoc]
  rw [parseStr, ← heq]
  exact parseStrF_escBody s _ rest hs le_rfl

theorem parseStr_escStr_tail (s X : PyStr) (hs : wfStr s = true) :
    parseStr ((escBody s ++ [34]) ++ X) = some (s, X) := by
  have heq : (escBody s ++ [34]) ++ X = escBody s ++ (34 :: X) := by
    simp [List.append_assoc]
  rw [heq]
  exact parseStr_escBody s X hs

set_option maxHeartbeats 1000000 in
theorem dumps_roundtrip : ∀ fuel : Nat,
    (∀ v pre rest, wfJson v = true → isWsList pre = true →
      2 * (pre ++ (jsonDumps v ++ rest)).length + 1 < fuel → stopOk rest = true →
      parseVal fuel (pre ++ (jsonDumps v ++ rest)) = some (v, rest)) ∧
    (∀ x xs acc pre rest, wfJson x = true → wfArr xs = true → isWsList pre = true →
      2 * (pre ++ (jsonDumps x ++ (dumpsItems xs ++ 93 :: rest))).length + 2 < fuel →
      stopOk rest = true →
      parseArrItems fuel acc (pre ++ (jsonDumps x ++ (dumpsItems xs ++ 93 :: rest))) =
        some (.arr (acc ++ x :: xs), rest)) ∧
    (∀ k v kvs acc pre rest, wfStr k = true → wfJson v = true → wfPairs kvs = true →
      nodupKeys (acc.map Prod.fst ++ k :: kvs.map Prod.fst) = true → isWsList pre = true →
      2 * (pre ++ (escStr k ++ 58 :: 32 :: (jsonDumps v ++ (dumpsPairs kvs ++ 125 :: rest)))).length + 2 < fuel →
      stopOk rest = true →
      parseObjItems fuel acc (pre ++ (escStr k ++ 58 :: 32 :: (jsonDumps v ++ (dumpsPairs kvs ++ 125 :: rest)))) =
        some (.obj (acc ++ (k, v) :: kvs), rest)) := by
  intro fuel
  induction fuel with
  | zero =>
    exact ⟨fun v pre rest _ _ hf _ => absurd hf (by omega),
      fun x xs acc pre rest _ _ _ hf _ => absurd hf (by omega),
      fun k v kvs acc pre rest _ _ _ _ _ hf _ => absurd hf (by omega)⟩
  | succ f ih =>
    obtain ⟨ihP, ihQ, ihR⟩ := ih
    refine ⟨?_, ?_, ?_⟩
    · intro v pre rest hwf hpre hf hstop
      cases v with
      | null =>
        simp only [jsonDumps, parseVal, List.cons_append, List.nil_append,
          skipWs_ws_append hpre, skipWs_cons_not_ws (show isWs 110 = false by decide)]
        simp [expectLit]
      | bool b =>
        cases b with
        | true =>
          simp only [jsonDumps, parseVal, List.cons_append, List.nil_append,
            skipWs_ws_append hpre, skipWs_cons_not_ws (show isWs 116 = false by decide)]
          simp [expectLit]
        | false =>
          simp only [jsonDumps, parseVal, List.cons_append, List.nil_append,
            skipWs_ws_append hpre, skipWs_cons_not_ws (show isWs 102 = false by decide)]
          simp [expectLit]
      | num n =>
        obtain ⟨c0, t0, h0, hc0⟩ := intDigits_head n
        have hd : jsonDumps (Json.num n) = c0 :: t0 := h0
        have hb : isDigit c0 = true → 48 ≤ c0 ∧ c0 ≤ 57 := by
          intro h
          simpa [isDigit, Bool.and_eq_true, decide_eq_true_eq] using h
        have hne : c0 ≠ 110 ∧ c0 ≠ 116 ∧ c0 ≠ 102 ∧ c0 ≠ 34 ∧ c0 ≠ 91 ∧ c0 ≠ 123 ∧
            isWs c0 = false := by
          rcases hc0 with h | h
          · subst h
            exact ⟨by decide, by decide, by decide, by decide, by decide, by decide, by decide⟩
          · obtain ⟨h1, h2⟩ := hb h
            refine ⟨by omega, by omega, by omega, by omega, by omega, by omega, ?_⟩
            simp only [isWs, Bool.or_eq_false_iff, decide_eq_false_iff_not]
            omega
        obtain ⟨hn1, hn2, hn3, hn4, hn5, hn6, hnws⟩ := hne
        simp only [hd, parseVal, List.cons_append, List.nil_append,
          skipWs_ws_append hpre, skipWs_cons_not_ws hnws]
        rw [if_neg hn1, if_neg hn2, if_neg hn3, if_neg hn4, if_neg hn5, if_neg hn6,
          if_pos (show c0 = 45 ∨ isDigit c0 = true from hc0)]
        have harg : c0 :: (t0 ++ rest) = intDigits n ++ rest := by
          rw [← List.cons_append, ← h0]
        rw [harg, parseNum_intDigits n rest (stopOk_head hstop), Option.map_some']
      | str s =>
        simp only [wfJson] at hwf
        simp only [jsonDumps, escStr, parseVal, List.cons_append, List.nil_append,
          List.append_assoc, skipWs_ws_append hpre,
          skipWs_cons_not_ws (show isWs 34 = false by decide)]
        simp [parseStr_escBody s rest hwf]
      | arr xs =>
        cases xs with
        | nil =>
          simp only [jsonDumps, parseVal, List.cons_append, List.nil_append,
            skipWs_ws_append hpre, skipWs_cons_not_ws (show isWs 91 = false by decide),
            skipWs_cons_not_ws (show isWs 93 = false by decide)]
          simp
        | cons y t =>
          simp only [wfJson, wfArr, Bool.and_eq_true] at hwf
          obtain ⟨hwy, hwt⟩ := hwf
          have hlx := jsonDumps_length y
          have hlen : 2 * (([] : PyStr) ++ (jsonDumps y ++ (dumpsItems t ++ 93 :: rest))).length + 2 < f := by
            simp only [jsonDumps, List.length_append, List.length_cons, List.length_nil,
              List.nil_append] at hf ⊢
            omega
          have hq := ihQ y t [] [] rest hwy hwt rfl hlen hstop
          simp only [List.nil_append] at hq
          obtain ⟨c1, t1, h1, h1ws, h1ne93, -⟩ := jsonDumps_head y
          simp only [jsonDumps, parseVal, List.cons_append, List.nil_append,
            List.append_assoc, skipWs_ws_append hpre,
            skipWs_cons_not_ws (show isWs 91 = false by decide)]
          rw [if_neg (by decide), if_neg (by decide), if_neg (by decide), if_neg (by decide)]
          have hsk : skipWs (jsonDumps y ++ (dumpsItems t ++ 93 :: rest)) =
              c1 :: (t1 ++ (dumpsItems t ++ 93 :: rest)) := by
            rw [h1, List.cons_append, skipWs_cons_not_ws h1ws]
          simp only [if_true, hsk]
          rw [if_neg h1ne93]
          exact hq
      | obj kvs =>
        cases kvs with
        | nil =>
          simp only [jsonDumps, parseVal, List.cons_append, List.nil_append,
            skipWs_ws_append hpre, skipWs_cons_not_ws (show isWs 123 = false by decide),
            skipWs_cons_not_ws (show isWs 125 = false by decide)]
          simp
        | cons p kvs2 =>
          obtain ⟨k, v⟩ := p
          simp only [wfJson, nodupKeys, wfPairs, List.map_cons, Bool.and_eq_true,
            decide_eq_true_eq] at hwf
          obtain ⟨⟨hmem, hnod2⟩, ⟨hwk, hwv⟩, hwkvs2⟩ := hwf
          have hnod0 : nodupKeys (k :: List.map Prod.fst kvs2) = true := by
            simp only [nodupKeys, Bool.and_eq_true, decide_eq_true_eq]
            exact ⟨hmem, hnod2⟩
          have hlen : 2 * (([] : PyStr) ++ (escStr k ++ 58 :: 32 ::
              (jsonDumps v ++ (dumpsPairs kvs2 ++ 125 :: rest)))).length + 2 < f := by
            simp only [jsonDumps, escStr, List.length_append, List.length_cons,
              List.length_nil, List.nil_append, List.cons_append] at hf ⊢
            omega
          have hr := ihR k v kvs2 [] [] rest hwk hwv hwkvs2 hnod0 rfl hlen hstop
          simp only [List.nil_append] at hr
          simp only [jsonDumps, parseVal, List.cons_append, List.nil_append,
            List.append_assoc, skipWs_ws_append hpre,
            skipWs_cons_not_ws (show isWs 123 = false by decide)]
          rw [if_neg (by decide), if_neg (by decide), if_neg (by decide), if_neg (by decide),
            if_neg (by decide)]
          have hsk : skipWs (escStr k ++ (58 :: 32 ::
              (jsonDumps v ++ (dumpsPairs kvs2 ++ 125 :: rest)))) =
              34 :: ((escBody k ++ [34]) ++ (58 :: 32 ::
                (jsonDumps v ++ (dumpsPairs kvs2 ++ 125 :: rest)))) := by
            rw [escStr, List.cons_append, List.cons_append,
              skipWs_cons_not_ws (by decide)]
          simp only [if_true, hsk]
          rw [if_neg (by decide)]
          exact hr
    · intro x xs acc pre rest hwx hwxs hpre hf hstop
      have hP := ihP x pre (dumpsItems xs ++ 93 :: rest) hwx hpre (by omega)
        (stopOk_dumpsItems xs rest)
      simp only [parseArrItems, hP, Option.some_bind]
      cases xs with
      | nil =>
        simp only [dumpsItems, List.nil_append,
          skipWs_cons_not_ws (show isWs 93 = false by decide)]
        simp
      | cons y t =>
        simp only [wfArr, Bool.and_eq_true] at hwxs
        obtain ⟨hwy, hwt⟩ := hwxs
        have hly := jsonDumps_length x
        have hlen : 2 * (([32] : PyStr) ++ (jsonDumps y ++ (dumpsItems t ++ 93 :: rest))).length + 2 < f := by
          simp only [dumpsItems, List.length_append, List.length_cons, List.length_nil,
            List.nil_append, List.cons_append] at hf ⊢
          omega
        have hq := ihQ y t (acc ++ [x]) [32] rest hwy hwt (by decide) hlen hstop
        simp only [List.cons_append, List.nil_append, List.append_assoc] at hq
        simp only [dumpsItems, List.cons_append, List.append_assoc, List.nil_append,
          skipWs_cons_not_ws (show isWs 44 = false by decide)]
        simp only [if_true]
        exact hq
    · intro k v kvs acc pre rest hwk hwv hwkvs hnod hpre hf hstop
      have hlv := jsonDumps_length v
      have hPv := ihP v [32] (dumpsPairs kvs ++ 125 :: rest) hwv (by decide) (by
        simp only [escStr, List.length_append, List.length_cons, List.length_nil,
          List.nil_append, List.cons_append] at hf ⊢
        omega) (stopOk_dumpsPairs kvs rest)
      simp only [List.cons_append, List.nil_append] at hPv
      simp only [parseObjItems, List.cons_append, List.nil_append, List.append_assoc,
        skipWs_ws_append hpre]
      have hsk : skipWs (escStr k ++ (58 :: 32 ::
          (jsonDumps v ++ (dumpsPairs kvs ++ 125 :: rest)))) =
          34 :: ((escBody k ++ [34]) ++ (58 :: 32 ::
            (jsonDumps v ++ (dumpsPairs kvs ++ 125 :: rest)))) := by
        rw [escStr, List.cons_append, List.cons_append, skipWs_cons_not_ws (by decide)]
      simp only [if_true, hsk]
      rw [parseStr_escStr_tail k _ hwk, Option.some_bind]
      simp only [skipWs_cons_not_ws (show isWs 58 = false by decide), if_true]
      rw [hPv, Option.some_bind]
      have hmem : k ∉ acc.map Prod.fst := nodupKeys_mid _ k _ hnod
      cases kvs with
      | nil =>
        simp only [dumpsPairs, List.nil_append,
          skipWs_cons_not_ws (show isWs 125 = false by decide)]
        rw [if_pos trivial, insertKey_of_not_mem acc k v hmem, if_neg (by decide)]
      | cons p kvs2 =>
        obtain ⟨k2, v2⟩ := p
        simp only [wfPairs, Bool.and_eq_true] at hwkvs
        obtain ⟨⟨hwk2, hwv2⟩, hwkvs2⟩ := hwkvs
        have hnod2 : nodupKeys ((acc ++ [(k, v)]).map Prod.fst ++
            k2 :: kvs2.map Prod.fst) = true := by
          simp only [List.map_append, List.map_cons, List.map_nil, List.append_assoc,
            List.cons_append, List.nil_append] at hnod ⊢
          exact hnod
        have hlen2 : 2 * (([32] : PyStr) ++ (escStr k2 ++ 58 :: 32 ::
            (jsonDumps v2 ++ (dumpsPairs kvs2 ++ 125 :: rest)))).length + 2 < f := by
          simp only [dumpsPairs, escStr, List.length_append, List.length_cons,
            List.length_nil, List.nil_append, List.cons_append] at hf ⊢
          omega
        have hr := ihR k2 v2 kvs2 (acc ++ [(k, v)]) [32] rest hwk2 hwv2 hwkvs2 hnod2
          (by decide) hlen2 hstop
        simp only [List.cons_append, List.nil_append, List.append_assoc] at hr
        simp only [dumpsPairs, List.cons_append, List.append_assoc, List.nil_append,
          skipWs_cons_not_ws (show isWs 44 = false by decide)]
        simp only [if_true]
        rw [insertKey_of_not_mem acc k v hmem]
        exact hr

theorem jsonParse_wf {s : PyStr} {v : Json} (h : jsonParse s = some v) :
    wfJson v = true := by
  rw [jsonParse] at h
  rcases hp : parseVal (2 * s.length + 2) s with - | p
  · rw [hp] at h
    exact absurd h (by simp)
  · rw [hp, Option.some_bind] at h
    by_cases hsw : skipWs p.2 = []
    · rw [if_pos hsw] at h
      injection h with h2
      rw [← h2]
      exact (parse_wf (2 * s.length + 2)).1 s p.1 p.2 (by rw [hp])
    · rw [if_neg hsw] at h
      exact absurd h (by simp)

theorem jsonParse_jsonDumps {v : Json} (h : wfJson v = true) :
    jsonParse (jsonDumps v) = some v := by
  have hP := (dumps_roundtrip (2 * (jsonDumps v).length + 2)).1 v [] [] h rfl
    (by simp only [List.nil_append, List.append_nil]; omega) rfl
  rw [show ([] : PyStr) ++ (jsonDumps v ++ []) = jsonDumps v from by simp] at hP
  rw [jsonParse, hP, Option.some_bind]
  rfl

/-- C7: for every byte payload that the Encoding Resolver decodes to
text which parses as a JSON value, process_file under a filename whose
lowercased last-dot suffix is json returns the compact re-serialization
of that value (with one Encoding Resolver invocation), and that compact
string re-parses to the identical JSON value: parse after normalize
equals parse. -/
theorem C7_json_normalize_roundtrip (xl : Bytes → Except PyExc PyStr)
    (content : Bytes) (fname : PyStr) (s : PyStr) (v : Json)
    (hext : pyLower ((splitDot fname).getLastD []) = pyStr "json")
    (hdec : try_decode content = .ok s)
    (hparse : jsonParse s = some v) :
    process_file xl content fname = (.ok (jsonDumps v), 1) ∧
    jsonParse (jsonDumps v) = some v := by
  refine ⟨?_, jsonParse_jsonDumps (jsonParse_wf hparse)⟩
  simp only [List.getLastD_eq_getLast?] at hext
  simp [process_file, hext, hdec, hparse]
  intro hcontra
  exact absurd hcontra (by decide)

theorem C7_json_normalize_roundtrip_witness :
    pyLower ((splitDot (pyStr "f.json")).getLastD []) = pyStr "json" ∧
    try_decode [123, 34, 97, 34, 58, 49, 125] = .ok (pyStr "\x7b\"a\":1\x7d") ∧
    jsonParse (pyStr "\x7b\"a\":1\x7d") = some (.obj [(pyStr "a", .num 1)]) ∧
    process_file (fun _ => .error .excelError) [123, 34, 97, 34, 58, 49, 125]
        (pyStr "f.json") =
      (.ok (jsonDumps (.obj [(pyStr "a", .num 1)])), 1) ∧
    jsonParse (jsonDumps (.obj [(pyStr "a", .num 1)])) =
      some (.obj [(pyStr "a", .num 1)]) :=
  ⟨rfl, rfl, rfl,
    C7_json_normalize_roundtrip (fun _ => .error .excelError)
      [123, 34, 97, 34, 58, 49, 125] (pyStr "f.json")
      (pyStr "\x7b\"a\":1\x7d") (.obj [(pyStr "a", .num 1)]) rfl rfl rfl⟩
